import Mathlib

/-!
Verification development for the hydra_code multi-agent orchestration engine.

Shallow embedding of the orchestration core of the repository:
`orchestration/aggregator.py`, `orchestration/state.py`,
`orchestration/communication.py`, `orchestration/coordinator.py`,
`orchestration/dispatcher.py`, `orchestration/parallel.py`,
`orchestration/roles.py` and `tools/file_tools.py`.

Python primitives (substring test, `str.replace(..., 1)`, `str.splitlines`,
`str.strip`, dict comprehensions and `list.sort`) are modelled by explicit
Lean functions defined below.  Machine floats (timestamps, execution times)
are omitted from the data model: no claim depends on them.
-/

namespace HydraSpec

/-! ## Python string primitives -/

/-- Does `needle` occur at the head of `hay`?  (Helper for the Python
substring operator `needle in hay`.) -/
def subAt (needle hay : List Char) : Bool :=
  match needle, hay with
  | a :: as, b :: bs => a == b && subAt as bs
  | [], _ => true
  | _ :: _, [] => false

/-- Does `needle` occur anywhere inside `hay`?  Models Python `needle in hay`. -/
def hasSub (needle : List Char) : List Char → Bool
  | [] => subAt needle []
  | c :: t => subAt needle (c :: t) || hasSub needle t

/-- Python `needle in hay` on strings. -/
def strContains (hay needle : String) : Bool := hasSub needle.toList hay.toList

/-- The whitespace characters stripped by Python `str.strip()` (restricted
to the common ASCII ones). -/
def isWsChar (c : Char) : Bool := ([' ', '\t', '\n', '\r'] : List Char).contains c

/-- Strip leading and trailing whitespace from a character list. -/
def stripChars (cs : List Char) : List Char :=
  ((cs.dropWhile isWsChar).reverse.dropWhile isWsChar).reverse

/-- Python `s.strip()`. -/
def pyStrip (s : String) : String := ⟨stripChars s.toList⟩

/-- Python `s.lower()`. -/
def pyLower (s : String) : String := ⟨s.toList.map Char.toLower⟩

/-- Python `s.startswith(p)`. -/
def pyStartsWith (s p : String) : Bool := subAt p.toList s.toList

/-- Python truthiness of `s and s.strip()` for a string `s`:
true iff `s` is non-empty and contains a non-whitespace character. -/
def pyNonBlank (s : String) : Bool := (s != "") && (pyStrip s != "")

/-- Python truthiness of an `Optional[str]`: `None` and `""` are falsy. -/
def pyTruthyOpt : Option String → Bool
  | none => false
  | some s => s != ""

/-- Replace the first occurrence of `old` by `new` in a character list.
Models Python `content.replace(old, new, 1)` (an empty `old` inserts `new`
at position 0, as in Python). -/
def replFirst (old new : List Char) : List Char → List Char
  | [] => if subAt old [] then new else []
  | c :: t => if subAt old (c :: t) then new ++ (c :: t).drop old.length
              else c :: replFirst old new t

/-- Python `content.replace(old, new, 1)` on strings. -/
def pyReplaceOnce (content old new : String) : String :=
  ⟨replFirst old.toList new.toList content.toList⟩

/-- Split a character list at newline characters (keeping empty pieces). -/
def splitNlAux : List Char → List (List Char)
  | [] => [[]]
  | c :: t =>
    match splitNlAux t with
    | [] => [[]]
    | h :: r => if c = '\n' then [] :: h :: r else (c :: h) :: r

/-- Python `str.splitlines` restricted to `\n` separators: splits on `\n`
and does not produce a final empty piece for a trailing newline. -/
def splitlines (s : String) : List String :=
  if s = "" then []
  else
    let parts := (splitNlAux s.toList).map (fun l => (⟨l⟩ : String))
    if s.toList.getLast? = some '\n' then parts.dropLast else parts

/-! ## Roles (`orchestration/roles.py`) -/

/-- The fixed closed set of model roles. -/
inductive ModelRole
  | fast
  | pro
  | sonnet
  | opus
deriving DecidableEq, Repr

/-- Model of `get_role_definition(role).name`. -/
def roleName : ModelRole → String
  | .fast => "Fast"
  | .pro => "Pro"
  | .sonnet => "Sonnet"
  | .opus => "Opus"

/-- Model of `get_role_definition(role).description`. -/
def roleDescription : ModelRole → String
  | .fast => "快速响应，任务分类与分发"
  | .pro => "项目规划与核心代码编写"
  | .sonnet => "深度推理与问题解决"
  | .opus => "工具调用与本地操作"

/-- Model of `ModelRole.value` (the enum's string value). -/
def roleValue : ModelRole → String
  | .fast => "fast"
  | .pro => "pro"
  | .sonnet => "sonnet"
  | .opus => "opus"

/-! ## Result aggregator (`orchestration/aggregator.py`) -/

/-- Model of `ModelResult` (the `execution_time` float field is omitted). -/
structure ModelResult where
  role : ModelRole
  success : Bool
  content : String
  tool_calls : List String := []
  error : Option String := none
deriving DecidableEq, Repr

/-- Model of `AggregatedResult`. -/
structure AggregatedResult where
  success : Bool
  content : String
  role_results : List (ModelRole × ModelResult) := []
  tool_calls : List String := []
  summary : String := ""
deriving DecidableEq, Repr

/-- Insertion into a Python dict represented as a key-unique association
list in insertion order: an existing key keeps its position and gets the
new value, a new key is appended. -/
def dictInsert (m : List (ModelRole × ModelResult)) (k : ModelRole) (v : ModelResult) :
    List (ModelRole × ModelResult) :=
  if m.any (fun p => p.1 == k) then
    m.map (fun p => if p.1 == k then (k, v) else p)
  else m ++ [(k, v)]

/-- The dict comprehension `{r.role: r for r in results}` (later entries
overwrite earlier ones). -/
def roleResultsDict (rs : List ModelResult) : List (ModelRole × ModelResult) :=
  rs.foldl (fun m r => dictInsert m r.role r) []

/-- Python `role_results[role]` guarded by `role in role_results`. -/
def dictFind (m : List (ModelRole × ModelResult)) (k : ModelRole) : Option ModelResult :=
  (m.find? (fun p => p.1 == k)).map Prod.snd

/-- Semantics of lookup in `{r.role: r for r in results}`: the last result
with the given role. -/
def roleLookup (rs : List ModelResult) (role : ModelRole) : Option ModelResult :=
  (rs.filter (fun r => r.role == role)).getLast?

/-- Model of `ResultAggregator.__init__`: the fixed strongest-first role precedence. -/
def roleOrder : List ModelRole := [.opus, .sonnet, .pro, .fast]

/-- The section header `f"\n### \x7brole_def.name\x7d (\x7brole_def.description\x7d)\n"`. -/
def sectionHeader (role : ModelRole) : String :=
  "\n### " ++ roleName role ++ " (" ++ roleDescription role ++ ")\n"

/-- The `content_parts` loop of `ResultAggregator.aggregate`: iterate
`role_order`; for each role present in `role_results` whose stored result is
successful with non-blank content, append the header and the content. -/
def sectionParts (role_results : List (ModelRole × ModelResult)) : List String :=
  (roleOrder.map (fun role =>
    match dictFind role_results role with
    | some r =>
        if r.success && pyNonBlank r.content then [sectionHeader role, r.content] else []
    | none => [])).flatten

/-- The list of roles that receive a labeled section in the merged content. -/
def sectionRoles (rs : List ModelResult) : List ModelRole :=
  roleOrder.filter (fun role =>
    match roleLookup rs role with
    | some r => r.success && pyNonBlank r.content
    | none => false)

/-- Model of `ResultAggregator._generate_summary`. -/
def generateSummary (rs : List ModelResult) : String :=
  "协作完成 - 参与模型: " ++ String.intercalate ", " (rs.map (fun r => roleName r.role))

/-- Model of `ResultAggregator.aggregate`. -/
def aggregate (results : List ModelResult) : AggregatedResult :=
  if results.isEmpty then
    { success := false, content := "没有可用的结果", summary := "执行失败：无结果" }
  else
    let role_results := roleResultsDict results
    let successful := results.filter (fun r => r.success)
    if successful.isEmpty then
      let errors := results.filterMap
        (fun r => r.error.bind (fun e =>
          if e != "" then some (roleName r.role ++ ": " ++ e) else none))
      { success := false
        content := if !errors.isEmpty then String.intercalate "\n" errors else "所有模型执行失败"
        role_results := role_results
        summary := "执行失败" }
    else
      let all_tool_calls := successful.foldl (fun acc r => acc ++ r.tool_calls) []
      let parts := sectionParts role_results
      let parts := if parts.isEmpty then
          successful.filterMap (fun r => if r.content != "" then some r.content else none)
        else parts
      { success := true
        content := String.intercalate "\n" parts
        role_results := role_results
        tool_calls := all_tool_calls
        summary := generateSummary successful }

/-! ## Inter-model messaging (`orchestration/communication.py`, `orchestration/state.py`) -/

/-- Model of `MessageType`. -/
inductive MessageType
  | request_help
  | share_discovery
  | delegate_task
  | report_progress
  | ask_clarification
  | validate_result
  | feedback
  | handoff
deriving DecidableEq, Repr

/-- Model of `Priority` (enum values 1, 5, 8, 10). -/
inductive MsgPriority
  | low
  | normal
  | high
  | urgent
deriving DecidableEq, Repr

/-- Model of `ModelMessage` (the float `timestamp` and the free-form `context` map are
omitted; no claim depends on them). -/
structure ModelMessage where
  from_role : String
  to_role : Option String
  message_type : MessageType
  content : String
  priority : MsgPriority := .normal
  requires_response : Bool := false
  id : String
deriving DecidableEq, Repr

/-- Insertion into the `pending_requests` dict keyed by message id. -/
def pendInsert (m : List (String × ModelMessage)) (k : String) (v : ModelMessage) :
    List (String × ModelMessage) :=
  if m.any (fun p => p.1 == k) then
    m.map (fun p => if p.1 == k then (k, v) else p)
  else m ++ [(k, v)]

/-- The messaging part of `CollaborationState`: the FIFO `message_queue` and
the `pending_requests` dict. -/
structure CState where
  message_queue : List ModelMessage := []
  pending_requests : List (String × ModelMessage) := []
deriving DecidableEq, Repr

/-- Model of `CollaborationState.broadcast`: append to the queue; if the message
requires a response and has a truthy `to_role`, index it in
`pending_requests` by id. -/
def broadcast (st : CState) (m : ModelMessage) : CState :=
  { message_queue := st.message_queue ++ [m]
    pending_requests :=
      if m.requires_response && pyTruthyOpt m.to_role then
        pendInsert st.pending_requests m.id m
      else st.pending_requests }

/-- The loop body of `CollaborationState.get_messages_for`: returns
`(messages, remaining)`.  A message addressed to `role` or to nobody is
collected; it is additionally kept in `remaining` unless it is directed to
`role` and requires a response. -/
def partitionMessages (role : String) : List ModelMessage → List ModelMessage × List ModelMessage
  | [] => ([], [])
  | msg :: rest =>
    let p := partitionMessages role rest
    if msg.to_role == none || msg.to_role == some role then
      (msg :: p.1,
       if !msg.requires_response || msg.to_role != some role then msg :: p.2 else p.2)
    else (p.1, msg :: p.2)

/-- Model of `CollaborationState.get_messages_for`: returns the collected messages and
the updated state. -/
def getMessagesFor (st : CState) (role : String) : List ModelMessage × CState :=
  let p := partitionMessages role st.message_queue
  (p.1, { st with message_queue := p.2 })

/-- Model of `CollaborationState.respond_to`: delete the pending entry (when present)
and enqueue the response. -/
def respondTo (st : CState) (original_id : String) (response : ModelMessage) : CState :=
  { message_queue := st.message_queue ++ [response]
    pending_requests := st.pending_requests.filter (fun p => p.1 != original_id) }

/-! ## Simple classify-and-dispatch path (`orchestration/dispatcher.py`)

Each regex of `TaskDispatcher.PATTERNS` is used with `pattern.search(text)`
under `re.IGNORECASE`; every pattern is a literal, an alternation of
literals, or a literal followed by an optional literal group, so each
compiles to a disjunction of substring tests (the optional group never
affects whether `search` succeeds).  Case-insensitivity only matters for
the sole ASCII pattern `"bug"`. -/

/-- Model of `TaskType`. -/
inductive TaskType
  | simple
  | complex
  | multi_stage
deriving DecidableEq, Repr

/-- Model of `SubTask` (the `dependencies` and `context` fields, unused by
`_create_subtasks`, are omitted). -/
structure SubTask where
  role : ModelRole
  task : String
  priority : Nat := 0
deriving DecidableEq, Repr

/-- The five `simple_qa` patterns. -/
def patsSimpleQa (t : String) : List Bool :=
  [strContains t "什么是",
   strContains t "如何使用" || strContains t "如何做",
   strContains t "为什么",
   strContains t "解释",
   strContains t "帮我看看" || strContains t "帮我检查"]

/-- The five `code_generation` patterns. -/
def patsCodeGeneration (t : String) : List Bool :=
  [strContains t "写一个" || strContains t "写段",
   strContains t "创建",
   strContains t "实现",
   strContains t "编写",
   strContains t "代码"]

/-- The seven `bug_fix` patterns (the `"bug"` pattern is case-insensitive). -/
def patsBugFix (t : String) : List Bool :=
  [strContains (pyLower t) "bug",
   strContains t "错误",
   strContains t "问题",
   strContains t "不工作",
   strContains t "报错",
   strContains t "异常",
   strContains t "修复"]

/-- The six `algorithm` patterns. -/
def patsAlgorithm (t : String) : List Bool :=
  [strContains t "算法", strContains t "优化", strContains t "复杂度",
   strContains t "性能", strContains t "数学", strContains t "计算"]

/-- The six `architecture` patterns. -/
def patsArchitecture (t : String) : List Bool :=
  [strContains t "架构", strContains t "设计", strContains t "项目",
   strContains t "系统", strContains t "模块", strContains t "重构"]

/-- The six `file_operation` patterns. -/
def patsFileOperation (t : String) : List Bool :=
  [strContains t "文件", strContains t "目录", strContains t "读取",
   strContains t "写入", strContains t "创建文件", strContains t "修改"]

/-- The five `chinese_context` patterns. -/
def patsChineseContext (t : String) : List Bool :=
  [strContains t "报告", strContains t "文档", strContains t "总结",
   strContains t "分析", strContains t "方案"]

/-- Number of patterns of one tag that match the text. -/
def countTrue (l : List Bool) : Nat := (l.filter id).length

/-- The per-tag scores of `TaskDispatcher._classify_intent`. -/
structure IntentScores where
  simple_qa : Nat
  code_generation : Nat
  bug_fix : Nat
  algorithm : Nat
  architecture : Nat
  file_operation : Nat
  chinese_context : Nat
deriving DecidableEq, Repr

/-- Model of `TaskDispatcher._classify_intent`. -/
def classifyIntent (t : String) : IntentScores :=
  { simple_qa := countTrue (patsSimpleQa t)
    code_generation := countTrue (patsCodeGeneration t)
    bug_fix := countTrue (patsBugFix t)
    algorithm := countTrue (patsAlgorithm t)
    architecture := countTrue (patsArchitecture t)
    file_operation := countTrue (patsFileOperation t)
    chinese_context := countTrue (patsChineseContext t) }

/-- Total score over all tags. -/
def totalScore (sc : IntentScores) : Nat :=
  sc.simple_qa + sc.code_generation + sc.bug_fix + sc.algorithm +
    sc.architecture + sc.file_operation + sc.chinese_context

/-- Model of `TaskDispatcher._determine_task_type`. -/
def determineTaskType (sc : IntentScores) (text : String) : TaskType :=
  if totalScore sc ≤ 1 && text.length < 100 then .simple
  else if sc.code_generation > 0 && sc.architecture > 0 then .multi_stage
  else if totalScore sc ≥ 3 then .complex
  else if totalScore sc > 0 then .complex
  else .simple

/-- Insert a subtask into a descending-sorted list: it is placed before the
first element of smaller-or-equal priority.  Used head-first over the
original list, this keeps the original relative order of equal-priority
elements (the earlier element ends up first). -/
def insertDesc (x : SubTask) : List SubTask → List SubTask
  | [] => [x]
  | y :: ys => if y.priority ≤ x.priority then x :: y :: ys else y :: insertDesc x ys

/-- Stable descending sort by priority: the unique output of Python
`list.sort(key=lambda s: s.priority, reverse=True)` (stable, descending). -/
def sortByPriorityDesc : List SubTask → List SubTask
  | [] => []
  | x :: xs => insertDesc x (sortByPriorityDesc xs)

/-- Model of `TaskDispatcher._create_subtasks`: fixed tag-to-role table, a single
de-duplication guard for the Chinese-context tag, default subtask, then the
stable descending sort by priority (Python `list.sort(key=priority,
reverse=True)`). -/
def createSubtasks (sc : IntentScores) (user_input : String) : List SubTask :=
  let l : List SubTask :=
    (if sc.file_operation > 0 then [⟨.opus, "执行文件操作: " ++ user_input, 10⟩] else []) ++
    (if sc.bug_fix > 0 then [⟨.sonnet, "诊断并修复问题: " ++ user_input, 8⟩] else []) ++
    (if sc.algorithm > 0 then [⟨.sonnet, "解决算法/优化问题: " ++ user_input, 7⟩] else []) ++
    (if sc.code_generation > 0 || sc.architecture > 0 then
      [⟨.pro, "设计和实现: " ++ user_input, 5⟩] else [])
  let l := l ++
    (if sc.chinese_context > 0 && !(l.any (fun s => s.role == .opus)) then
      [⟨.opus, "生成中文文档/报告: " ++ user_input, 3⟩] else [])
  let l := if l.isEmpty then [⟨.pro, user_input, 5⟩] else l
  sortByPriorityDesc l

/-- The SubTask list produced by `TaskDispatcher.analyze` for a request that
is not routed to the SIMPLE direct-answer path. -/
def subtasksForText (t : String) : List SubTask :=
  createSubtasks (classifyIntent t) t

/-! ## The edit-file tool (`tools/file_tools.py`, `EditFileTool.execute`)

The file-system side (path resolution, reading and writing the file) is
elided: `editFileContent` is the pure core mapping the current file content
and the `old_content` / `new_content` arguments to either the new file
content (`Except.ok`, after which the tool writes the file and reports
success) or an error message (`Except.error`, after which the tool reports
failure without writing). -/

/-- The window search of the flexible-match fallback: the first index `i`
such that the stripped lines of the file starting at `i` equal the stripped
lines of `old_content` (Python `range(len(norm_lines) - len(norm_old_lines)
+ 1)` with a sliding-window comparison). -/
def flexFindIdx (norm_lines norm_old : List String) : Option Nat :=
  (List.range (norm_lines.length + 1 - norm_old.length)).find?
    (fun i => (norm_lines.drop i).take norm_old.length == norm_old)

/-- Model of the `EditFileTool.execute` core: exact substring replacement first, then the
line-based whitespace-insensitive fallback, and only then failure. -/
def editFileContent (content old_content new_content : String) : Except String String :=
  if hasSub old_content.toList content.toList then
    .ok (pyReplaceOnce content old_content new_content)
  else
    let lines := splitlines content
    let old_lines := splitlines old_content
    let norm_lines := lines.map pyStrip
    let norm_old := old_lines.map pyStrip
    if norm_old.isEmpty then .error "Old content is empty"
    else
      match flexFindIdx norm_lines norm_old with
      | some i =>
        let pre := String.intercalate "\n" (lines.take i) ++ (if 0 < i then "\n" else "")
        let post := (if i + old_lines.length < lines.length then "\n" else "") ++
          String.intercalate "\n" (lines.drop (i + old_lines.length))
        .ok (pre ++ new_content ++ post)
      | none => .error "Could not find the content to replace. Tried exact match and line-based whitespace-insensitive match."

/-- Specification-side predicate: `old` occurs verbatim inside `content`. -/
def OccursIn (old content : String) : Prop :=
  ∃ pre post, content.toList = pre ++ old.toList ++ post

/-- Specification-side predicate: some window of the file's stripped lines
equals the stripped lines of `old`. -/
def FlexMatch (old content : String) : Prop :=
  ∃ i, i + (splitlines old).length ≤ (splitlines content).length ∧
    (((splitlines content).map pyStrip).drop i).take (splitlines old).length =
      (splitlines old).map pyStrip

/-! ## Request routing (`orchestration/coordinator.py`, `_analyze_request`)

The classifier response is a free string; `_analyze_request` extracts the
first balanced-brace candidate with `re.search` over the pattern
`\x7b[\s\S]+\x7d` and feeds it to `json.loads`.  `json.loads` is modelled by
a fuel-based recursive-descent JSON reader (`parseVal`): objects, arrays,
strings with the common escapes, `null`, booleans and number lexemes;
`\u` escapes and strict number grammar are not modelled, so a few exotic
strings that CPython accepts are treated as unparseable here — the claims
settled on this model only constrain inputs the model itself rejects or
accepts. -/

/-- Model of `TaskComplexity`. -/
inductive TaskComplexity
  | simple
  | moderate
  | complex
deriving DecidableEq, Repr

/-- A JSON value; numbers keep their source lexeme (no floats needed). -/
inductive Json
  | null
  | boolean (b : Bool)
  | num (lexeme : String)
  | str (s : String)
  | arr (items : List Json)
  | obj (fields : List (String × Json))

/-- Model of `RoutingResult`.  The `domain`, `intent` and `reason` fields are typed
`str` in the dataclass but receive whatever `dict.get` returns, so they are
modelled as JSON values. -/
structure RoutingResult where
  complexity : TaskComplexity
  domain : Json
  intent : Json
  reason : Json

/-- The opening brace character. -/
def openBrace : Char := Char.ofNat 123

/-- The closing brace character. -/
def closeBrace : Char := Char.ofNat 125

/-- The substring captured by `re.search` over the pattern that matches a
brace, one or more arbitrary characters, and a brace: the match starts at
the first opening brace that is followed (at distance at least 2) by a
closing brace, and extends greedily to the last closing brace. -/
def extractJsonCandidate (s : String) : Option String :=
  let cs := s.toList
  let closes := (List.range cs.length).filter (fun j => cs.getD j ' ' == closeBrace)
  match closes.getLast? with
  | none => none
  | some j =>
    match (List.range cs.length).find? (fun i => cs.getD i ' ' == openBrace && i + 2 ≤ j) with
    | none => none
    | some i => some ⟨(cs.drop i).take (j + 1 - i)⟩

/-- JSON whitespace skipping (the same four whitespace characters as
`isWsChar`, which is exactly CPython's JSON whitespace set). -/
def skipWs (cs : List Char) : List Char := cs.dropWhile isWsChar

/-- Translate a JSON string escape character. -/
def jsonEscapeChar (e : Char) : Option Char :=
  if e = '"' || e = '\\' || e = '/' then some e
  else if e = 'n' then some '\n'
  else if e = 't' then some '\t'
  else if e = 'r' then some '\r'
  else if e = 'b' then some (Char.ofNat 8)
  else if e = 'f' then some (Char.ofNat 12)
  else none

/-- Value of one hexadecimal digit. -/
def hexDigit (c : Char) : Option Nat :=
  if c.isDigit then some (c.toNat - 48)
  else if 97 ≤ c.toNat ∧ c.toNat ≤ 102 then some (c.toNat - 87)
  else if 65 ≤ c.toNat ∧ c.toNat ≤ 70 then some (c.toNat - 55)
  else none

/-- Exactly four hexadecimal digits, as required after a backslash-u escape. -/
def hex4 : List Char → Option (Nat × List Char)
  | a :: b :: c :: d :: rest =>
    match hexDigit a, hexDigit b, hexDigit c, hexDigit d with
    | some x, some y, some z, some w => some (((x * 16 + y) * 16 + z) * 16 + w, rest)
    | _, _, _, _ => none
  | _ => none

/-- Code point decoded from a backslash-u escape, with the rest of the
input: a high surrogate immediately followed by a second backslash-u escape
holding a low surrogate combines into one supplementary code point, exactly
as in the scanner of `json.loads`; any other surrogate is left alone (the
scanner then emits a lone-surrogate code unit, which no Lean character can
carry, so `Char.ofNat` on it is out of this model's exact domain). -/
def uniEscape (n : Nat) (r : List Char) : Nat × List Char :=
  if 0xD800 ≤ n ∧ n ≤ 0xDBFF then
    match r with
    | '\\' :: 'u' :: r3 =>
      match hex4 r3 with
      | some (m, r4) =>
        if 0xDC00 ≤ m ∧ m ≤ 0xDFFF then
          (0x10000 + (n - 0xD800) * 1024 + (m - 0xDC00), r4)
        else (n, r)
      | none => (n, r)
    | _ => (n, r)
  else (n, r)

/-- Read a JSON string body after the opening quote, mirroring the strict
scanner of `json.loads`: a raw control character (code below 32) is
rejected, a backslash-u escape takes four hexadecimal digits with surrogate
pairs combined by `uniEscape`, any other escape goes through
`jsonEscapeChar` (unknown escapes are rejected).  The fuel bounds the
recursion; every step consumes at least one character, so input length plus
one always suffices. -/
def parseStrBody : Nat → List Char → Option (String × List Char)
  | 0, _ => none
  | _ + 1, [] => none
  | _ + 1, '"' :: rest => some ("", rest)
  | fuel + 1, '\\' :: rest =>
    match rest with
    | 'u' :: r1 =>
      match hex4 r1 with
      | some (n, r2) =>
        let p := uniEscape n r2
        match parseStrBody fuel p.2 with
        | some (s, r5) => some (⟨Char.ofNat p.1 :: s.toList⟩, r5)
        | none => none
      | none => none
    | e :: r1 =>
      match jsonEscapeChar e with
      | some c =>
        match parseStrBody fuel r1 with
        | some (s, r) => some (⟨c :: s.toList⟩, r)
        | none => none
      | none => none
    | [] => none
  | fuel + 1, c :: rest =>
    if c.toNat < 32 then none
    else
      match parseStrBody fuel rest with
      | some (s, r) => some (⟨c :: s.toList⟩, r)
      | none => none

/-- Read a JSON string body after the opening quote; returns the decoded
string and the rest after the closing quote. -/
def parseStrLit (cs : List Char) : Option (String × List Char) :=
  parseStrBody (cs.length + 1) cs

/-- Leading run of decimal digits. -/
def spanDigits (cs : List Char) : List Char × List Char :=
  (cs.takeWhile Char.isDigit, cs.dropWhile Char.isDigit)

/-- Integer part of the scanner's number pattern: a single zero, or a
nonzero digit followed by any further digits (so `01` lexes as just `0`). -/
def lexInt : List Char → Option (List Char × List Char)
  | '0' :: rest => some (['0'], rest)
  | c :: rest =>
    if c.isDigit then
      let p := spanDigits rest
      some (c :: p.1, p.2)
    else none
  | [] => none

/-- Optional fraction group: a dot followed by at least one digit, or
nothing consumed. -/
def lexFrac (cs : List Char) : List Char × List Char :=
  match cs with
  | '.' :: rest =>
    match spanDigits rest with
    | ([], _) => ([], cs)
    | (ds, r) => ('.' :: ds, r)
  | _ => ([], cs)

/-- Optional exponent group: `e` or `E`, an optional sign, at least one
digit, or nothing consumed. -/
def lexExp (cs : List Char) : List Char × List Char :=
  match cs with
  | c :: s :: rest =>
    if c == 'e' || c == 'E' then
      if s == '+' || s == '-' then
        match spanDigits rest with
        | ([], _) => ([], cs)
        | (ds, r) => (c :: s :: ds, r)
      else
        match spanDigits (s :: rest) with
        | ([], _) => ([], cs)
        | (ds, r) => (c :: ds, r)
    else ([], cs)
  | _ => ([], cs)

/-- The scanner's NUMBER_RE matched at the current position: an optional
minus sign, a mandatory integer part, then optional fraction and exponent
groups.  Returns the matched lexeme and the rest; no match when the
integer part is absent. -/
def matchNumber (cs : List Char) : Option (List Char × List Char) :=
  let p := match cs with
    | '-' :: rest => ((['-'] : List Char), rest)
    | _ => (([] : List Char), cs)
  match lexInt p.2 with
  | none => none
  | some (ip, r1) =>
    let f := lexFrac r1
    let e := lexExp f.2
    some (p.1 ++ ip ++ f.1 ++ e.1, e.2)

/-- Consume a fixed literal at the head of the input, if present. -/
def dropLit (lit cs : List Char) : Option (List Char) :=
  if subAt lit cs then some (cs.drop lit.length) else none

mutual

/-- Fuel-based JSON value reader, in the scanner's dispatch order: the
`null`/`true`/`false` literals, then strings, arrays and objects, then a
number match, then the `NaN`, `Infinity` and `-Infinity` constants
(kept as numeric lexemes). -/
def parseVal : Nat → List Char → Option (Json × List Char)
  | 0, _ => none
  | fuel + 1, cs =>
    let cs := skipWs cs
    match dropLit "null".toList cs with
    | some r => some (.null, r)
    | none =>
    match dropLit "true".toList cs with
    | some r => some (.boolean true, r)
    | none =>
    match dropLit "false".toList cs with
    | some r => some (.boolean false, r)
    | none =>
    match cs with
    | '"' :: r => (parseStrLit r).map (fun p => (.str p.1, p.2))
    | '[' :: r =>
      (match skipWs r with
       | ']' :: r2 => some (.arr [], r2)
       | r2 => (parseArrItems fuel r2).map (fun p => (.arr p.1, p.2)))
    | c :: r =>
      if c == openBrace then
        match skipWs r with
        | r2 =>
          if r2.headD ' ' == closeBrace then some (.obj [], r2.tail)
          else (parseObjItems fuel r2).map (fun p => (.obj p.1, p.2))
      else
        match matchNumber (c :: r) with
        | some p => some (.num ⟨p.1⟩, p.2)
        | none =>
        match dropLit "NaN".toList (c :: r) with
        | some r2 => some (.num "NaN", r2)
        | none =>
        match dropLit "Infinity".toList (c :: r) with
        | some r2 => some (.num "Infinity", r2)
        | none =>
        match dropLit "-Infinity".toList (c :: r) with
        | some r2 => some (.num "-Infinity", r2)
        | none => none
    | [] => none

/-- One-or-more comma-separated array items, then the closing bracket. -/
def parseArrItems : Nat → List Char → Option (List Json × List Char)
  | 0, _ => none
  | fuel + 1, cs => do
    let (v, r) ← parseVal fuel cs
    match skipWs r with
    | ']' :: r2 => some ([v], r2)
    | ',' :: r2 => (parseArrItems fuel r2).map (fun p => (v :: p.1, p.2))
    | _ => none

/-- One-or-more comma-separated object fields, then the closing brace. -/
def parseObjItems : Nat → List Char → Option (List (String × Json) × List Char)
  | 0, _ => none
  | fuel + 1, cs =>
    match skipWs cs with
    | '"' :: r => do
      let (k, r2) ← parseStrLit r
      match skipWs r2 with
      | ':' :: r3 => do
        let (v, r4) ← parseVal fuel r3
        match skipWs r4 with
        | ',' :: r5 => (parseObjItems fuel r5).map (fun p => ((k, v) :: p.1, p.2))
        | c :: r5 => if c == closeBrace then some ([(k, v)], r5) else none
        | [] => none
      | _ => none
    | _ => none

end

/-- Model of `json.loads` applied to the extracted candidate, requiring a top-level
object and, like CPython, no trailing data. -/
def parseTopObj (s : String) : Option (List (String × Json)) :=
  match parseVal (s.length + 1) s.toList with
  | some (.obj fields, rest) => if (skipWs rest).isEmpty then some fields else none
  | _ => none

/-- Python `dict.get(k, default)`; `json.loads` keeps the last of duplicate
keys. -/
def jsonGet (fields : List (String × Json)) (k : String) (dflt : Json) : Json :=
  match (fields.filter (fun p => p.1 == k)).getLast? with
  | some p => p.2
  | none => dflt

/-- The fixed fallback `RoutingResult(SIMPLE, "coding", "new", "Analysis failed")`. -/
def analysisFailed : RoutingResult :=
  ⟨.simple, .str "coding", .str "new", .str "Analysis failed"⟩

/-- Model of `TaskComplexity(complexity_str)` guarded by the local
`except ValueError`: any value other than the three member strings —
including numbers, booleans, null, objects and arrays (the Enum value
lookup falls back to a linear search on unhashable values and still raises
`ValueError`) — is caught and becomes SIMPLE. -/
def toComplexity : Json → TaskComplexity
  | .str "simple" => .simple
  | .str "moderate" => .moderate
  | .str "complex" => .complex
  | _ => .simple

/-- Model of `DynamicCoordinator._analyze_request` as a function of agent
availability and the classifier's textual response.  When the candidate
parses, the parsed `domain`, `intent` and `reason` values are kept
whatever the `complexity` value was, since its `ValueError` is caught
locally; the full `Analysis failed` default appears only when there is no
candidate or `json.loads` rejects it.  The function is total: no
exception reaches the caller. -/
def analyzeRequest (hasAgent : Bool) (response : String) : RoutingResult :=
  if !hasAgent then ⟨.simple, .str "coding", .str "new", .str "No fast_agent"⟩
  else
    match (extractJsonCandidate response).bind parseTopObj with
    | some fields =>
        ⟨toComplexity (jsonGet fields "complexity" (.str "simple")),
         jsonGet fields "domain" (.str "coding"),
         jsonGet fields "intent" (.str "new"),
         jsonGet fields "reason" (.str "")⟩
    | none => analysisFailed

/-! ## Parallel execution engine (`orchestration/parallel.py`)

The module worker `_execute_module` is embedded as a deterministic function
of an environment of oracles: the behavior of the underlying streamed agent
call (`ModuleEnv.agent`, whose outcome is wrapped by
`callAgentWithTools`, mirroring `_call_agent_with_tools`), the tool
executor (`ModuleEnv.tool`, mirroring `registry.get` plus
`tool.execute`), and `_handle_help_request` (`ModuleEnv.help`).  The
initial prompt message list (pure string formatting over the module spec
and context) is passed in as `msgs0`; all theorems quantify over it.  The
worker's observable behavior (its `ParallelTask` mutations, agent-call and
tool-call counts, and whether it terminated by an uncaught exception) is
returned as a `LoopResult`. -/

/-- Model of `clients.base.Role`. -/
inductive ChatRole
  | system
  | user
  | assistant
  | tool
deriving DecidableEq, Repr

/-- Model of `clients.base.ToolCall` (the arguments dict is kept as an opaque
string). -/
structure AgentToolCall where
  id : String
  name : String
  arguments : String := ""
deriving DecidableEq, Repr

/-- Model of `clients.base.Message` (the `reasoning_content` and `tool_results`
fields, unused by the engine, are omitted).  `content` is `Optional[str]`:
a streamed response with no content chunks yields `None`. -/
structure ChatMessage where
  role : ChatRole
  content : Option String := none
  tool_calls : List AgentToolCall := []
  tool_call_id : Option String := none
deriving DecidableEq, Repr

/-- Model of `parallel.TaskStatus`. -/
inductive TaskStatus
  | pending
  | in_progress
  | completed
  | failed
  | needs_help
deriving DecidableEq, Repr

/-- Model of `parallel.ModuleSpec`. -/
structure ModuleSpec where
  name : String
  description : String := ""
  interface : String := ""
  role : ModelRole := .pro
deriving DecidableEq, Repr

/-- Model of `parallel.ParallelTask` (the `dependencies` and `assigned_instance`
fields, unused by the claims, are omitted).  `code_output` is declared
`str` but `_repair_module` assigns it `response.content`, which can be
`None`, so it is modelled as an optional string initialised to `some ""`. -/
structure ParallelTask where
  id : String
  description : String := ""
  role : ModelRole := .pro
  status : TaskStatus := .pending
  result : String := ""
  code_output : Option String := some ""
  issues : List String := []
deriving DecidableEq, Repr

/-- Outcome of the underlying `agent.client.chat_stream` call inside
`_call_agent_with_tools`: a response, a timeout, or an exception. -/
inductive CallOutcome
  | ok (m : ChatMessage)
  | timeout (seconds : Nat)
  | exc (e : String)

/-- Model of `ParallelCollaborator._call_agent_with_tools` (lines 991-994): a timeout
or exception is converted into an assistant message whose content starts
with `Error:` and which carries no tool calls. -/
def callAgentWithTools : CallOutcome → ChatMessage
  | .ok m => m
  | .timeout t => { role := .assistant, content := some ("Error: API调用超时 (" ++ toString t ++ "秒)") }
  | .exc e => { role := .assistant, content := some ("Error: " ++ e) }

/-- Model of `tools.base.ToolResult` restricted to the fields the engine reads. -/
structure ToolResultRec where
  success : Bool
  output : String := ""
  error : Option String := none
deriving DecidableEq, Repr

/-- Outcome of one tool dispatch in the worker loop: the registry has no
such tool (nothing is appended), the tool ran and returned a `ToolResult`,
or `tool.execute` raised. -/
inductive ToolOutcome
  | missing
  | executed (r : ToolResultRec)
  | raised (e : String)

/-- The tool-dispatch loop body of `_execute_module`: each tool call
increments the counter; a found tool appends a TOOL message whose content is
`result.output` on success and `result.error` on failure; a raised
exception appends a TOOL error message; a missing tool appends nothing. -/
def runTools (tool : AgentToolCall → List ChatMessage → ToolOutcome) :
    List AgentToolCall → List ChatMessage → Nat → List ChatMessage × Nat
  | [], msgs, cnt => (msgs, cnt)
  | tc :: rest, msgs, cnt =>
    match tool tc msgs with
    | .missing => runTools tool rest msgs (cnt + 1)
    | .executed r =>
      runTools tool rest
        (msgs ++ [{ role := .tool,
                    content := if r.success then some r.output else r.error,
                    tool_call_id := some tc.id }]) (cnt + 1)
    | .raised e =>
      runTools tool rest
        (msgs ++ [{ role := .tool,
                    content := some ("工具执行错误: " ++ e),
                    tool_call_id := some tc.id }]) (cnt + 1)

/-- The tool-dispatch loop body of `_repair_module`: no counter is kept; a
found tool appends a TOOL message as in the worker loop; a raised
exception appends a TOOL message with the prefix `错误: ` (shorter than
the worker loop's `工具执行错误: `); a missing tool appends nothing. -/
def runToolsRepair (tool : AgentToolCall → List ChatMessage → ToolOutcome) :
    List AgentToolCall → List ChatMessage → List ChatMessage
  | [], msgs => msgs
  | tc :: rest, msgs =>
    match tool tc msgs with
    | .missing => runToolsRepair tool rest msgs
    | .executed r =>
      runToolsRepair tool rest
        (msgs ++ [{ role := .tool,
                    content := if r.success then some r.output else r.error,
                    tool_call_id := some tc.id }])
    | .raised e =>
      runToolsRepair tool rest
        (msgs ++ [{ role := .tool,
                    content := some ("错误: " ++ e),
                    tool_call_id := some tc.id }])

/-- Environment of oracles for one module worker. -/
structure ModuleEnv where
  agent : List ChatMessage → CallOutcome
  tool : AgentToolCall → List ChatMessage → ToolOutcome
  help : String → Option String

/-- Observable result of one module worker. -/
structure LoopResult where
  task : ParallelTask
  agentCalls : Nat
  toolCallsCount : Nat
  crashed : Bool
deriving DecidableEq, Repr

/-- Normal completion of the worker loop: record the response content as
the module output, mark Completed, set the result line. -/
def completeTask (moduleName : String) (c : String) (t : ParallelTask) (aC tC : Nat) :
    LoopResult :=
  ⟨{ t with code_output := some c, status := .completed,
            result := moduleName ++ " 实现完成" }, aC, tC, false⟩

/-- The `for i in range(max_iterations)` loop of `_execute_module` (fuel is
the remaining iteration budget, 15 at entry).  A response with no tool
calls completes the module unless it carries a `[REQUEST_HELP` marker whose
help side-call returns a truthy result (then the advice is injected and the
loop continues), or its content is `None` — in which case the Python
membership test `"[REQUEST_HELP" in response.content` raises `TypeError`,
the coroutine dies and the task keeps its current (InProgress) status.
Exhausting the budget marks the task Failed with the fixed issue string. -/
def execModuleLoop (env : ModuleEnv) (moduleName : String) :
    Nat → List ChatMessage → ParallelTask → Nat → Nat → LoopResult
  | 0, _, t, aC, tC =>
    ⟨{ t with status := .failed, issues := t.issues ++ ["达到最大迭代次数"] }, aC, tC, false⟩
  | fuel + 1, msgs, t, aC, tC =>
    let resp := callAgentWithTools (env.agent msgs)
    let msgs := msgs ++ [resp]
    let aC := aC + 1
    if resp.tool_calls.isEmpty then
      match resp.content with
      | none => ⟨t, aC, tC, true⟩
      | some c =>
        if strContains c "[REQUEST_HELP" then
          match env.help c with
          | some h =>
            if h != "" then
              execModuleLoop env moduleName fuel
                (msgs ++ [{ role := .user, content := some ("帮助结果: " ++ h) }]) t aC tC
            else completeTask moduleName c t aC tC
          | none => completeTask moduleName c t aC tC
        else completeTask moduleName c t aC tC
    else
      let r := runTools env.tool resp.tool_calls msgs tC
      execModuleLoop env moduleName fuel r.1 t aC r.2

/-- Model of `ParallelCollaborator._execute_module`: fail immediately when the
module's role has no configured agent, otherwise mark InProgress and run
the bounded tool-use loop with a budget of 15 iterations. -/
def execModule (env : ModuleEnv) (hasAgent : Bool) (msgs0 : List ChatMessage)
    (module : ModuleSpec) (t : ParallelTask) : LoopResult :=
  if !hasAgent then
    ⟨{ t with status := .failed,
              issues := t.issues ++ ["找不到 " ++ roleValue t.role ++ " 模型"] }, 0, 0, false⟩
  else
    execModuleLoop env module.name 15 msgs0 { t with status := .in_progress } 0 0

/-- The `for i in range(max_iterations)` loop of `_repair_module` (budget
10).  A response with no tool calls marks the task Completed (the content,
possibly `None`, becomes the output); exhausting the budget leaves the task
unchanged (still Failed). -/
def repairLoop (agentO : List ChatMessage → CallOutcome)
    (tool : AgentToolCall → List ChatMessage → ToolOutcome) :
    Nat → List ChatMessage → ParallelTask → ParallelTask
  | 0, _, t => t
  | fuel + 1, msgs, t =>
    let resp := callAgentWithTools (agentO msgs)
    let msgs := msgs ++ [resp]
    if resp.tool_calls.isEmpty then
      { t with code_output := resp.content, status := .completed }
    else
      repairLoop agentO tool fuel (runToolsRepair tool resp.tool_calls msgs) t

/-- Environment for one `_repair_module` call. -/
structure RepairEnv where
  agent : List ChatMessage → CallOutcome
  tool : AgentToolCall → List ChatMessage → ToolOutcome
  msgs0 : List ChatMessage

/-- Model of `ParallelCollaborator._repair_module`: the repair agent is OPUS if
configured, else PRO if configured; with neither, the call returns without
any repair attempt.  The boolean reports whether a repair loop actually
ran. -/
def repairModule (agents : List ModelRole) (env : RepairEnv) (t : ParallelTask) :
    ParallelTask × Bool :=
  if agents.contains .opus || agents.contains .pro then
    (repairLoop env.agent env.tool 10 env.msgs0 t, true)
  else (t, false)

/-- One iteration of the `for module in failed_modules` loop of
`_integrate_modules`: resolve the module of task `i` by index, re-resolve
the task by module name (`_find_task_by_module_name` returns the task of
the FIRST module carrying that name), repair it, and log the repaired task
index when an attempt was actually made. -/
def repairStep (agents : List ModelRole) (envs : Nat → RepairEnv) (modules : List ModuleSpec)
    (acc : List ParallelTask × List Nat) (i : Nat) : List ParallelTask × List Nat :=
  match modules.get? i with
  | none => acc
  | some m =>
    match modules.findIdx? (fun mm => mm.name == m.name) with
    | none => acc
    | some j =>
      match acc.1.get? j with
      | none => acc
      | some tj =>
        let r := repairModule agents (envs acc.2.length) tj
        (acc.1.set j r.1, if r.2 then acc.2 ++ [j] else acc.2)

/-- The repair phase of `ParallelCollaborator._integrate_modules` (lines
684-701).  With no agent configured at all the method returns before the
repair loop.  Otherwise `failed_modules` collects, in task order, the
module of every task whose status is not Completed (`_find_module_by_task`
maps the task index to the module list); each is then repaired via
`repairStep`.  `tasks` is the task list aligned with `modules` (task `i`
has id `module_i`); `envs k` supplies the oracles of the `k`-th actual
repair attempt.  Returns the final tasks and the log of repaired task
indices in order. -/
def integrateRepairPhase (agents : List ModelRole) (envs : Nat → RepairEnv)
    (modules : List ModuleSpec) (tasks : List ParallelTask) :
    List ParallelTask × List Nat :=
  if agents.isEmpty then (tasks, [])
  else
    let failedIdxs := (List.range tasks.length).filter (fun i =>
      match tasks.get? i with
      | some t => t.status != .completed
      | none => false)
    failedIdxs.foldl (repairStep agents envs modules) (tasks, [])

/-! ### Batch scheduling trace model (`_parallel_execution`)

`_parallel_execution` iterates `execution_order`; for each batch it creates
one `_execute_module` coroutine per resolvable module name and suspends on
`asyncio.gather(..., return_exceptions=True)`, which resumes only after
every coroutine of the batch has either returned or raised.  The observable
events of one worker are its launch and its finish (carrying the final
task status and whether it died by an uncaught exception); a batch produces
an arbitrary interleaving of its workers' event sequences, and the engine
trace is the concatenation of the batch segments in schedule order.  The
batch index is recorded on each event as bookkeeping of which schedule
iteration created the coroutine. -/

/-- An observable scheduling event. -/
inductive WEvent
  | launch (batch : Nat) (moduleName : String)
  | finish (batch : Nat) (moduleName : String) (status : TaskStatus) (crashed : Bool)
deriving DecidableEq, Repr

/-- The batch a scheduling event belongs to. -/
def eventBatch : WEvent → Nat
  | .launch b _ => b
  | .finish b _ _ _ => b

/-- The event sequence of one worker coroutine: launched, then finished
with the status and crash flag produced by `execModule` under some
environment, prompt and initial task. -/
def WorkerTrace (bidx : Nat) (module : ModuleSpec) (tr : List WEvent) : Prop :=
  ∃ (env : ModuleEnv) (hasAgent : Bool) (msgs0 : List ChatMessage) (t : ParallelTask),
    tr = [.launch bidx module.name,
          .finish bidx module.name
            (execModule env hasAgent msgs0 module t).task.status
            (execModule env hasAgent msgs0 module t).crashed]

/-- Interleaving of two event sequences. -/
inductive Interleave : List WEvent → List WEvent → List WEvent → Prop
  | nil : Interleave [] [] []
  | left {a : WEvent} {as bs cs : List WEvent} :
      Interleave as bs cs → Interleave (a :: as) bs (a :: cs)
  | right {b : WEvent} {as bs cs : List WEvent} :
      Interleave as bs cs → Interleave as (b :: bs) (b :: cs)

/-- Interleaving of any number of event sequences. -/
inductive InterleaveAll : List (List WEvent) → List WEvent → Prop
  | nil : InterleaveAll [] []
  | cons {w : List WEvent} {ws : List (List WEvent)} {rest tr : List WEvent} :
      Interleave w rest tr → InterleaveAll ws rest → InterleaveAll (w :: ws) tr

/-- The event segment of one batch: one (possibly skipped) worker per batch
entry, concurrently interleaved.  An entry whose module or task cannot be
resolved contributes no events. -/
def BatchTrace (bidx : Nat) (modules : List ModuleSpec) (batch : List String)
    (seg : List WEvent) : Prop :=
  ∃ wtrs : List (List WEvent),
    wtrs.length = batch.length ∧
    (∀ k (h : k < wtrs.length),
      wtrs.get ⟨k, h⟩ = [] ∨
      ∃ mod name, batch.get? k = some name ∧ mod ∈ modules ∧ mod.name = name ∧
        WorkerTrace bidx mod (wtrs.get ⟨k, h⟩)) ∧
    InterleaveAll wtrs seg

/-- The full engine trace: the concatenation, in schedule order, of one
batch segment per batch of `execution_order`. -/
def EngineTrace (modules : List ModuleSpec) (order : List (List String))
    (tr : List WEvent) : Prop :=
  ∃ segs : List (List WEvent),
    segs.length = order.length ∧
    (∀ k (h : k < segs.length),
      ∃ batch, order.get? k = some batch ∧ BatchTrace k modules batch (segs.get ⟨k, h⟩)) ∧
    tr = segs.flatten

/-! ## Helper lemmas -/

/-- Replacing the value at key `k` puts `(k, v)` at the first `k`-keyed
position. -/
theorem find?_map_replace_self (k : ModelRole) (v : ModelResult) :
    ∀ m : List (ModelRole × ModelResult), m.any (fun p => p.1 == k) = true →
      (m.map (fun p => if p.1 == k then (k, v) else p)).find? (fun p => p.1 == k)
        = some (k, v) := by
  intro m
  induction m with
  | nil => simp
  | cons hd tl ih =>
    intro hany
    by_cases hk : hd.1 = k
    · have hb : (hd.1 == k) = true := by simpa using hk
      simp [List.find?, hb]
    · have hb : (hd.1 == k) = false := by simpa using hk
      simp only [List.any_cons, hb, Bool.false_or] at hany
      simp only [List.map_cons, hb, Bool.false_eq_true, if_false]
      rw [List.find?_cons_of_neg _ (by simp [hb])]
      exact ih hany

/-- Replacing the value at key `k` does not change lookups at other keys. -/
theorem find?_map_replace_ne (k k' : ModelRole) (v : ModelResult) (hne : k' ≠ k) :
    ∀ m : List (ModelRole × ModelResult),
      (m.map (fun p => if p.1 == k then (k, v) else p)).find? (fun p => p.1 == k')
        = m.find? (fun p => p.1 == k') := by
  intro m
  induction m with
  | nil => simp
  | cons hd tl ih =>
    by_cases hk : hd.1 = k
    · have hb : (hd.1 == k) = true := by simpa using hk
      have hb' : (hd.1 == k') = false := by simp [hk]; exact fun hh => hne hh.symm
      have hkk' : (k == k') = false := by simpa using fun hh => hne hh.symm
      simp only [List.map_cons, hb, if_true]
      rw [List.find?_cons_of_neg _ (by simp [hkk']),
          List.find?_cons_of_neg _ (by simp [hb'])]
      exact ih
    · have hb : (hd.1 == k) = false := by simpa using hk
      simp only [List.map_cons, hb, Bool.false_eq_true, if_false]
      by_cases hk' : hd.1 = k'
      · have hb' : (hd.1 == k') = true := by simpa using hk'
        rw [List.find?_cons_of_pos _ (by simp [hb']),
            List.find?_cons_of_pos _ (by simp [hb'])]
      · have hb' : (hd.1 == k') = false := by simpa using hk'
        rw [List.find?_cons_of_neg _ (by simp [hb']),
            List.find?_cons_of_neg _ (by simp [hb'])]
        exact ih

/-- Lookup after a dict insertion, same key. -/
theorem dictFind_dictInsert_self (m : List (ModelRole × ModelResult)) (k : ModelRole)
    (v : ModelResult) : dictFind (dictInsert m k v) k = some v := by
  unfold dictInsert dictFind
  by_cases h : m.any (fun p => p.1 == k) = true
  · rw [if_pos h, find?_map_replace_self k v m h]
    rfl
  · rw [if_neg h, List.find?_append]
    have h1 : m.find? (fun p => p.1 == k) = none := by
      rw [List.find?_eq_none]
      intro x hx hc
      exact h (List.any_eq_true.2 ⟨x, hx, hc⟩)
    rw [h1, Option.none_or]
    simp [List.find?]

/-- Lookup after a dict insertion, different key. -/
theorem dictFind_dictInsert_ne (m : List (ModelRole × ModelResult)) (k k' : ModelRole)
    (v : ModelResult) (hne : k' ≠ k) : dictFind (dictInsert m k v) k' = dictFind m k' := by
  unfold dictInsert dictFind
  by_cases h : m.any (fun p => p.1 == k) = true
  · rw [if_pos h, find?_map_replace_ne k k' v hne m]
  · rw [if_neg h, List.find?_append]
    have h2 : List.find? (fun p => p.1 == k') [(k, v)] = none := by
      simp [List.find?, show (k == k') = false from by simpa using fun hh => hne hh.symm]
    rw [h2, Option.or_none]

/-- The dict comprehension lookup equals the last matching result. -/
theorem dictFind_roleResultsDict (rs : List ModelResult) (k : ModelRole) :
    dictFind (roleResultsDict rs) k = roleLookup rs k := by
  induction rs using List.reverseRecOn with
  | nil => simp [roleResultsDict, roleLookup, dictFind, List.find?]
  | append_singleton rs r ih =>
    have hdict : roleResultsDict (rs ++ [r]) = dictInsert (roleResultsDict rs) r.role r := by
      simp [roleResultsDict, List.foldl_append]
    rw [hdict]
    unfold roleLookup
    rw [List.filter_append]
    by_cases hk : r.role = k
    · subst hk
      simp only [List.filter, BEq.refl]
      rw [List.getLast?_concat]
      exact dictFind_dictInsert_self _ _ _
    · have : (r.role == k) = false := by simpa using hk
      simp only [List.filter, this, List.append_nil]
      rw [dictFind_dictInsert_ne _ _ _ _ (fun hh => hk hh.symm)]
      exact ih

/-- With no duplicated roles, at most one result matches a given role. -/
theorem filter_role_length_le_one {rs : List ModelResult} (hnd : (rs.map (fun r => r.role)).Nodup)
    (k : ModelRole) : (rs.filter (fun r => r.role == k)).length ≤ 1 := by
  induction rs with
  | nil => simp
  | cons hd tl ih =>
    simp only [List.map_cons, List.nodup_cons] at hnd
    by_cases hk : hd.role == k
    · have hdk : hd.role = k := by simpa using hk
      have : tl.filter (fun r => r.role == k) = [] := by
        rw [List.filter_eq_nil_iff]
        intro x hx hc
        exact hnd.1 (by
          rw [hdk]
          have : x.role = k := by simpa using hc
          rw [← this]
          exact List.mem_map_of_mem _ hx)
      simp [List.filter, hk, this]
    · simp only [List.filter, hk]
      exact ih hnd.2

/-- A permutation of a list with at most one element is an equality. -/
theorem perm_eq_of_length_le_one {α : Type} {l l' : List α} (hp : l.Perm l')
    (hl : l.length ≤ 1) : l = l' := by
  cases l with
  | nil => simpa using hp.nil_eq
  | cons a t =>
    cases t with
    | nil => exact ((List.perm_singleton).1 hp.symm).symm
    | cons b t2 => simp at hl

/-- Under distinct roles, the role lookup is invariant under permutation. -/
theorem roleLookup_perm {rs rs' : List ModelResult} (hp : rs.Perm rs')
    (hnd : (rs.map (fun r => r.role)).Nodup) (k : ModelRole) :
    roleLookup rs k = roleLookup rs' k := by
  unfold roleLookup
  have hpf := hp.filter (fun r => r.role == k)
  have := perm_eq_of_length_le_one hpf (filter_role_length_le_one hnd k)
  rw [this]

/-! ## C4: aggregate on empty and all-failed input -/

/-- Claim C4, as stated, is false on an all-failed input none of whose
results carries a truthy error string: the content is then the fixed
fallback message `所有模型执行失败`, not the newline-join of the error
lines of the results carrying an error.  Two concrete inputs: a single
failed result with `error = None` (the claimed join is empty), and a
single failed result with `error = ""` (the claimed join is `Opus: `,
but the comprehension's `if r.error` guard drops the empty string). -/
theorem c4_counterexample :
    (∀ r ∈ [({ role := .opus, success := false, content := "" } : ModelResult)],
        r.success = false) ∧
    (aggregate [({ role := .opus, success := false, content := "" } : ModelResult)]).content
      = "所有模型执行失败" ∧
    (aggregate [({ role := .opus, success := false, content := "" } : ModelResult)]).content
      ≠ String.intercalate "\n"
          ([({ role := .opus, success := false, content := "" } : ModelResult)].filterMap
            (fun r => r.error.map (fun e => roleName r.role ++ ": " ++ e))) ∧
    (aggregate [({ role := .opus, success := false, content := "",
                   error := some "" } : ModelResult)]).content
      = "所有模型执行失败" ∧
    (aggregate [({ role := .opus, success := false, content := "",
                   error := some "" } : ModelResult)]).content
      ≠ String.intercalate "\n"
          ([({ role := .opus, success := false, content := "",
               error := some "" } : ModelResult)].filterMap
            (fun r => r.error.map (fun e => roleName r.role ++ ": " ++ e))) := by
  refine ⟨by decide, by decide, by decide, by decide, by decide⟩

/-- C4 (amended): `aggregate []` fails with the fixed message; on a
non-empty all-failed input, the result fails and the content is the
newline-join of the `role: error` lines of the results whose error is
truthy — present and non-empty, matching the comprehension's `if r.error`
guard — or the fixed fallback message when no result has one. -/
theorem c4_aggregate_failure :
    aggregate [] = { success := false, content := "没有可用的结果",
                     role_results := [], tool_calls := [], summary := "执行失败：无结果" } ∧
    ∀ rs : List ModelResult, rs ≠ [] → (∀ r ∈ rs, r.success = false) →
      (aggregate rs).success = false ∧
      (aggregate rs).content =
        (if !(rs.filterMap (fun r => r.error.bind (fun e =>
               if e != "" then some (roleName r.role ++ ": " ++ e) else none))).isEmpty
         then String.intercalate "\n"
           (rs.filterMap (fun r => r.error.bind (fun e =>
              if e != "" then some (roleName r.role ++ ": " ++ e) else none)))
         else "所有模型执行失败") := by
  constructor
  · rfl
  · intro rs hne hall
    have hne' : rs.isEmpty = false := by
      cases rs with
      | nil => exact absurd rfl hne
      | cons a t => rfl
    have hsucc : rs.filter (fun r => r.success) = [] := by
      rw [List.filter_eq_nil_iff]
      intro x hx
      simp [hall x hx]
    unfold aggregate
    rw [hne']
    simp only [Bool.false_eq_true, if_false, hsucc]
    exact ⟨rfl, rfl⟩

/-- Witness for `c4_aggregate_failure` at the concrete all-failed input
`[Opus failed with error "boom"]`. -/
theorem c4_witness :
    (aggregate [({ role := .opus, success := false, content := "",
                   error := some "boom" } : ModelResult)]).success = false ∧
    (aggregate [({ role := .opus, success := false, content := "",
                   error := some "boom" } : ModelResult)]).content =
      (if !([({ role := .opus, success := false, content := "",
                error := some "boom" } : ModelResult)].filterMap
              (fun r => r.error.bind (fun e =>
                 if e != "" then some (roleName r.role ++ ": " ++ e) else none))).isEmpty
       then String.intercalate "\n"
         ([({ role := .opus, success := false, content := "",
              error := some "boom" } : ModelResult)].filterMap
           (fun r => r.error.bind (fun e =>
              if e != "" then some (roleName r.role ++ ": " ++ e) else none)))
       else "所有模型执行失败") :=
  c4_aggregate_failure.2 _ (by decide) (by decide)

/-- A successful role lookup returns a member of the list with that role. -/
theorem roleLookup_mem {rs : List ModelResult} {k : ModelRole} {r : ModelResult}
    (h : roleLookup rs k = some r) : r ∈ rs ∧ r.role = k := by
  unfold roleLookup at h
  have hm : r ∈ rs.filter (fun x => x.role == k) := List.mem_of_mem_getLast? (by simp [h])
  rw [List.mem_filter] at hm
  exact ⟨hm.1, by simpa using hm.2⟩

/-- Under distinct roles, a member with the given role is the lookup result. -/
theorem roleLookup_of_mem {rs : List ModelResult} (hnd : (rs.map (fun r => r.role)).Nodup)
    {k : ModelRole} {r : ModelResult} (hr : r ∈ rs) (hk : r.role = k) :
    roleLookup rs k = some r := by
  have hmem : r ∈ rs.filter (fun x => x.role == k) :=
    List.mem_filter.2 ⟨hr, by simpa using hk⟩
  have hlen := filter_role_length_le_one hnd k
  unfold roleLookup
  cases hfil : rs.filter (fun x => x.role == k) with
  | nil => rw [hfil] at hmem; simp at hmem
  | cons x t =>
    cases t with
    | nil =>
      rw [hfil] at hmem
      simp only [List.mem_singleton] at hmem
      simp [hfil, hmem]
    | cons y t2 => rw [hfil] at hlen; simp at hlen

/-! ## C5: aggregate success path and section ordering -/

/-- Claim C5, as stated, is false when a role occurs twice in the input:
the per-role dict keeps the last occurrence, so permuting a successful and
a failed Opus result changes which one the section loop sees, and the two
permutations produce different content (one has an Opus-labeled section,
the other falls back to the unlabeled successful content). -/
theorem c5_counterexample :
    (([{ role := .opus, success := true, content := "X" },
       { role := .opus, success := false, content := "", error := some "boom" }] :
        List ModelResult).Perm
      [{ role := .opus, success := false, content := "", error := some "boom" },
       { role := .opus, success := true, content := "X" }]) ∧
    (∃ r ∈ ([{ role := .opus, success := true, content := "X" },
             { role := .opus, success := false, content := "", error := some "boom" }] :
              List ModelResult), r.success = true) ∧
    (aggregate [{ role := .opus, success := true, content := "X" },
                { role := .opus, success := false, content := "", error := some "boom" }]).content
      ≠ (aggregate [{ role := .opus, success := false, content := "", error := some "boom" },
                    { role := .opus, success := true, content := "X" }]).content := by
  refine ⟨by decide, by decide, by decide⟩

/-- C5 (amended): for an input with at least one successful result and no
role occurring twice, `aggregate` succeeds; the labeled sections are built
by iterating the fixed strongest-first order `[Opus, Sonnet, Pro, Fast]`
and contain exactly the roles present among successful results with
non-blank content, identically for any two permutations of the input; when
at least one section exists, the merged content is exactly the newline-join
of those sections. -/
theorem c5_aggregate_sections : ∀ rs rs' : List ModelResult,
    (∃ r ∈ rs, r.success = true) →
    (rs.map (fun r => r.role)).Nodup →
    rs.Perm rs' →
    (aggregate rs).success = true ∧
    sectionParts (roleResultsDict rs) = sectionParts (roleResultsDict rs') ∧
    (∀ role : ModelRole, role ∈ sectionRoles rs ↔
      role ∈ roleOrder ∧
        ∃ r ∈ rs, r.role = role ∧ r.success = true ∧ pyNonBlank r.content = true) ∧
    (sectionParts (roleResultsDict rs) ≠ [] →
      (aggregate rs).content = String.intercalate "\n" (sectionParts (roleResultsDict rs))) := by
  intro rs rs' hex hnd hp
  obtain ⟨r0, hr0, hs0⟩ := hex
  have hne : rs.isEmpty = false := by
    cases rs with
    | nil => simp at hr0
    | cons a t => rfl
  have hsucc : (rs.filter (fun r => r.success)).isEmpty = false := by
    have : r0 ∈ rs.filter (fun r => r.success) := List.mem_filter.2 ⟨hr0, hs0⟩
    cases hfil : rs.filter (fun r => r.success) with
    | nil => rw [hfil] at this; simp at this
    | cons a t => rfl
  have hrl : ∀ k, roleLookup rs k = roleLookup rs' k := roleLookup_perm hp hnd
  refine ⟨?_, ?_, ?_, ?_⟩
  · simp only [aggregate, hne, Bool.false_eq_true, if_false, hsucc]
  · simp only [sectionParts, dictFind_roleResultsDict, hrl]
  · intro role
    unfold sectionRoles
    rw [List.mem_filter]
    constructor
    · rintro ⟨hmem, hcond⟩
      refine ⟨hmem, ?_⟩
      cases hl : roleLookup rs role with
      | none => rw [hl] at hcond; simp at hcond
      | some r =>
        rw [hl] at hcond
        simp only [Bool.and_eq_true] at hcond
        obtain ⟨hin, hrole⟩ := roleLookup_mem hl
        exact ⟨r, hin, hrole, hcond.1, hcond.2⟩
    · rintro ⟨hmem, r, hin, hrole, hsuc, hnb⟩
      refine ⟨hmem, ?_⟩
      rw [roleLookup_of_mem hnd hin hrole]
      simp [hsuc, hnb]
  · intro hparts
    have hpe : (sectionParts (roleResultsDict rs)).isEmpty = false := by
      cases hc : sectionParts (roleResultsDict rs) with
      | nil => exact absurd hc hparts
      | cons a t => rfl
    simp only [aggregate, hne, Bool.false_eq_true, if_false, hsucc, hpe]

/-- Witness for `c5_aggregate_sections` at a concrete two-result input with
distinct roles, given in both orders. -/
theorem c5_witness :
    (aggregate [({ role := .opus, success := true, content := "X" } : ModelResult),
                { role := .sonnet, success := false, content := "", error := some "e" }]).success
      = true ∧
    sectionParts (roleResultsDict
        [({ role := .opus, success := true, content := "X" } : ModelResult),
         { role := .sonnet, success := false, content := "", error := some "e" }]) =
      sectionParts (roleResultsDict
        [({ role := .sonnet, success := false, content := "", error := some "e" } : ModelResult),
         { role := .opus, success := true, content := "X" }]) := by
  have h := c5_aggregate_sections
    [({ role := .opus, success := true, content := "X" } : ModelResult),
     { role := .sonnet, success := false, content := "", error := some "e" }]
    [({ role := .sonnet, success := false, content := "", error := some "e" } : ModelResult),
     { role := .opus, success := true, content := "X" }]
    (by decide) (by decide) (by decide)
  exact ⟨h.1, h.2.1⟩

/-! ## C2: message-bus delivery and retention -/

/-- The messages returned by `get_messages_for` are exactly the queued
messages addressed to the role or to nobody. -/
theorem partitionMessages_fst (role : String) (q : List ModelMessage) :
    (partitionMessages role q).1 =
      q.filter (fun m => m.to_role == none || m.to_role == some role) := by
  induction q with
  | nil => rfl
  | cons msg rest ih =>
    simp only [partitionMessages, List.filter]
    by_cases hm : (msg.to_role == none || msg.to_role == some role) = true
    · rw [hm]
      simp only [hm, if_true]
      by_cases hr : (!msg.requires_response || msg.to_role != some role) = true
      · simp [hr, ih]
      · simp only [Bool.not_eq_true] at hr
        simp [hr, ih]
    · rw [Bool.not_eq_true] at hm
      rw [hm]
      simp [hm, ih]

/-- The messages kept in the queue by `get_messages_for` are exactly those
that are not both directed to the role and response-requiring. -/
theorem partitionMessages_snd (role : String) (q : List ModelMessage) :
    (partitionMessages role q).2 =
      q.filter (fun m => !(m.to_role == some role && m.requires_response)) := by
  induction q with
  | nil => rfl
  | cons msg rest ih =>
    simp only [partitionMessages, List.filter]
    by_cases hdir : msg.to_role = some role
    · have h1 : (msg.to_role == none || msg.to_role == some role) = true := by
        simp [hdir]
      have h2 : (msg.to_role != some role) = false := by simp [hdir]
      by_cases hreq : msg.requires_response = true
      · have : (!(msg.to_role == some role && msg.requires_response)) = false := by
          simp [hdir, hreq]
        rw [this]
        simp only [h1, if_true, hreq, h2]
        simp [ih]
      · rw [Bool.not_eq_true] at hreq
        have : (!(msg.to_role == some role && msg.requires_response)) = true := by
          simp [hdir, hreq]
        rw [this]
        simp only [h1, if_true, hreq, h2]
        simp [ih]
    · have h3 : (!(msg.to_role == some role && msg.requires_response)) = true := by
        simp [hdir]
      rw [h3]
      by_cases hb : msg.to_role = none
      · have h1 : (msg.to_role == none || msg.to_role == some role) = true := by simp [hb]
        have h2 : (msg.to_role != some role) = true := by simp [hb]
        simp only [h1, if_true, h2, Bool.or_true]
        simp [ih]
      · have h1 : (msg.to_role == none || msg.to_role == some role) = false := by
          simp [hb, hdir]
        simp only [h1, Bool.false_eq_true, if_false]
        simp [ih]

/-- Claim C2, as stated, is false: a directed message that does not require
a response is returned by `get_messages_for(target)` but is NOT removed
from the queue (the code keeps it in `remaining`), so a second call
returns it again.  Concrete input: one report message directed to role
`"a"` with `requires_response = False`. -/
theorem c2_counterexample :
    (getMessagesFor
        { message_queue := [{ from_role := "b", to_role := some "a",
                              message_type := .report_progress, content := "hi",
                              requires_response := false, id := "m1" }] }
        "a").1
      = [{ from_role := "b", to_role := some "a", message_type := .report_progress,
           content := "hi", requires_response := false, id := "m1" }] ∧
    ((getMessagesFor
        { message_queue := [{ from_role := "b", to_role := some "a",
                              message_type := .report_progress, content := "hi",
                              requires_response := false, id := "m1" }] }
        "a").2).message_queue
      ≠ [] := by
  refine ⟨by decide, by decide⟩

/-- C2 (amended): `get_messages_for(role)` returns every queued message
addressed to `role` or to nobody; it removes from the queue exactly the
returned messages that are directed to `role` AND require a response
(broadcast and directed non-response messages stay queued, so broadcasts
reach every role's call and directed non-response messages are delivered
repeatedly); the pending map is untouched by delivery, is extended by
`broadcast` exactly for response-requiring messages with a truthy
recipient, and `respond_to` deletes the pending entry by id while
enqueueing the response. -/
theorem c2_message_bus : ∀ (st : CState) (role : String) (m : ModelMessage)
    (oid : String) (resp : ModelMessage),
    (getMessagesFor st role).1 =
      st.message_queue.filter (fun x => x.to_role == none || x.to_role == some role) ∧
    ((getMessagesFor st role).2).message_queue =
      st.message_queue.filter (fun x => !(x.to_role == some role && x.requires_response)) ∧
    ((getMessagesFor st role).2).pending_requests = st.pending_requests ∧
    (broadcast st m).message_queue = st.message_queue ++ [m] ∧
    (broadcast st m).pending_requests =
      (if m.requires_response && pyTruthyOpt m.to_role then
        pendInsert st.pending_requests m.id m
       else st.pending_requests) ∧
    (respondTo st oid resp).pending_requests =
      st.pending_requests.filter (fun p => p.1 != oid) ∧
    (respondTo st oid resp).message_queue = st.message_queue ++ [resp] := by
  intro st role m oid resp
  refine ⟨partitionMessages_fst role st.message_queue,
          partitionMessages_snd role st.message_queue, rfl, rfl, rfl, rfl, rfl⟩

/-! ## C3: routing classifier fallback -/

/-- C3: when no agent is configured, or when the classifier response yields
no parseable JSON object (no brace-delimited candidate, or a candidate the
JSON reader rejects — in particular the empty response), `_analyze_request`
returns exactly the fixed default complexity `simple`, domain `"coding"`,
intent `"new"`.  `analyzeRequest` is a total function: no exception
reaches the caller. -/
theorem c3_classifier_default : ∀ (hasAgent : Bool) (response : String),
    hasAgent = false ∨ (extractJsonCandidate response).bind parseTopObj = none →
    (analyzeRequest hasAgent response).complexity = .simple ∧
    (analyzeRequest hasAgent response).domain = .str "coding" ∧
    (analyzeRequest hasAgent response).intent = .str "new" := by
  intro hasAgent response h
  cases h with
  | inl h => subst h; exact ⟨rfl, rfl, rfl⟩
  | inr h =>
    cases hasAgent with
    | false => exact ⟨rfl, rfl, rfl⟩
    | true =>
      unfold analyzeRequest
      rw [h]
      exact ⟨rfl, rfl, rfl⟩

/-- Witness for `c3_classifier_default` at a concrete malformed response:
the candidate between the braces is not valid JSON, so the full default is
returned. -/
theorem c3_witness :
    (analyzeRequest true "Here you go: \x7bnot valid json\x7d").complexity = .simple ∧
    (analyzeRequest true "Here you go: \x7bnot valid json\x7d").domain = .str "coding" ∧
    (analyzeRequest true "Here you go: \x7bnot valid json\x7d").intent = .str "new" :=
  c3_classifier_default true "Here you go: \x7bnot valid json\x7d" (Or.inr rfl)

/-! ## C8: edit-file tool matching -/

/-- Lemma: `subAt` decides whether the needle is a prefix. -/
theorem subAt_iff (n : List Char) : ∀ h : List Char,
    subAt n h = true ↔ ∃ post, h = n ++ post := by
  induction n with
  | nil => intro h; simp [subAt]
  | cons a as ih =>
    intro h
    cases h with
    | nil =>
      simp only [subAt, Bool.false_eq_true, false_iff]
      rintro ⟨post, hp⟩
      simp at hp
    | cons b bs =>
      simp only [subAt, Bool.and_eq_true, beq_iff_eq, ih]
      constructor
      · rintro ⟨hab, post, hp⟩
        exact ⟨post, by simp [hab, hp]⟩
      · rintro ⟨post, hp⟩
        simp only [List.cons_append, List.cons.injEq] at hp
        exact ⟨hp.1.symm, post, hp.2⟩

/-- The empty needle occurs in every haystack. -/
theorem hasSub_nil : ∀ h : List Char, hasSub [] h = true
  | [] => rfl
  | _ :: t => by simp [hasSub, subAt]

/-- Lemma: `hasSub` decides substring occurrence. -/
theorem hasSub_iff (n : List Char) : ∀ h : List Char,
    hasSub n h = true ↔ ∃ pre post, h = pre ++ n ++ post := by
  intro h
  induction h with
  | nil =>
    simp only [hasSub, subAt_iff]
    constructor
    · rintro ⟨post, hp⟩
      exact ⟨[], post, by simpa using hp⟩
    · rintro ⟨pre, post, hp⟩
      have h2 : pre = [] ∧ n = [] ∧ post = [] := by
        have h3 := hp.symm
        simpa [List.append_eq_nil] using h3
      exact ⟨[], by simp [h2.2.1]⟩
  | cons c t ih =>
    simp only [hasSub, Bool.or_eq_true, subAt_iff, ih]
    constructor
    · rintro (⟨post, hp⟩ | ⟨pre, post, hp⟩)
      · exact ⟨[], post, by simpa using hp⟩
      · exact ⟨c :: pre, post, by simp [hp]⟩
    · rintro ⟨pre, post, hp⟩
      cases pre with
      | nil => exact Or.inl ⟨post, by simpa using hp⟩
      | cons x xs =>
        simp only [List.cons_append, List.cons.injEq] at hp
        exact Or.inr ⟨xs, post, hp.2⟩

/-- Lemma: `OccursIn` coincides with the Boolean substring test. -/
theorem occursIn_iff_hasSub (old content : String) :
    OccursIn old content ↔ hasSub old.toList content.toList = true :=
  (hasSub_iff old.toList content.toList).symm

/-- Lemma: `splitNlAux` never returns the empty list. -/
theorem splitNlAux_ne_nil (cs : List Char) : splitNlAux cs ≠ [] := by
  cases cs with
  | nil => simp [splitNlAux]
  | cons c t =>
    simp only [splitNlAux]
    cases splitNlAux t with
    | nil => simp
    | cons h r =>
      by_cases hc : c = '\n' <;> simp [hc]

/-- A character list containing a newline splits into at least two pieces. -/
theorem splitNlAux_length_two {cs : List Char} (h : '\n' ∈ cs) :
    2 ≤ (splitNlAux cs).length := by
  induction cs with
  | nil => simp at h
  | cons c t ih =>
    simp only [splitNlAux]
    cases hsp : splitNlAux t with
    | nil => exact absurd hsp (splitNlAux_ne_nil t)
    | cons hd r =>
      by_cases hc : c = '\n'
      · simp [hc]
      · have ht : '\n' ∈ t := by
          cases List.mem_cons.1 h with
          | inl he => exact absurd he.symm hc
          | inr he => exact he
        have := ih ht
        rw [hsp] at this
        simp only [List.length_cons] at this
        simp [hc, List.length_cons]
        omega

/-- A non-empty string has at least one line. -/
theorem splitlines_ne_nil {s : String} (h : s ≠ "") : splitlines s ≠ [] := by
  unfold splitlines
  rw [if_neg h]
  by_cases hlast : s.toList.getLast? = some '\n'
  · simp only [hlast, if_true]
    have hmem : '\n' ∈ s.toList := List.mem_of_mem_getLast? (by exact hlast)
    have := splitNlAux_length_two hmem
    intro hc
    have hlen := congrArg List.length hc
    simp only [List.length_dropLast, List.length_map, List.length_nil] at hlen
    omega
  · simp only [hlast, if_false]
    intro hc
    have hlen := congrArg List.length hc
    simp only [List.length_map, List.length_nil] at hlen
    exact absurd (List.length_eq_zero.1 hlen) (splitNlAux_ne_nil _)

/-- The fallback window search succeeds exactly on a whitespace-insensitive
line-block match. -/
theorem flexMatch_iff_findIdx (old content : String) :
    FlexMatch old content ↔
      (flexFindIdx ((splitlines content).map pyStrip) ((splitlines old).map pyStrip)).isSome := by
  unfold FlexMatch flexFindIdx
  rw [List.find?_isSome]
  constructor
  · rintro ⟨i, hle, heq⟩
    refine ⟨i, List.mem_range.2 (by simp only [List.length_map]; omega), ?_⟩
    simpa [List.length_map] using heq
  · rintro ⟨i, hmem, heq⟩
    rw [List.mem_range] at hmem
    simp only [List.length_map] at hmem
    refine ⟨i, by omega, ?_⟩
    simpa [List.length_map] using heq

/-- Claim C8, as stated, is false: with file content `"b"` and old content
`"  b  "`, the old content does not occur verbatim, yet the tool succeeds
and rewrites the file to the new content via its whitespace-insensitive
fallback, instead of reporting failure. -/
theorem c8_counterexample :
    ¬ OccursIn "  b  " "b" ∧ editFileContent "b" "  b  " "c" = .ok "c" := by
  constructor
  · intro h
    have h2 := (occursIn_iff_hasSub "  b  " "b").1 h
    exact absurd h2 (by decide)
  · rfl

/-- C8 (amended): the tool replaces the first exact occurrence when the old
content occurs verbatim; otherwise it attempts a line-based
whitespace-insensitive block match (stripped lines compared over a sliding
window) and rewrites that block; it reports failure — leaving the file
unmodified — exactly when both the exact match and the flexible match
fail. -/
theorem c8_edit_matching : ∀ content old new : String,
    (OccursIn old content →
      editFileContent content old new = .ok (pyReplaceOnce content old new)) ∧
    ((∃ e, editFileContent content old new = .error e) ↔
      ¬ OccursIn old content ∧ ¬ FlexMatch old content) := by
  intro content old new
  by_cases hs : hasSub old.toList content.toList = true
  · constructor
    · intro _
      unfold editFileContent
      rw [if_pos hs]
    · unfold editFileContent
      rw [if_pos hs]
      constructor
      · rintro ⟨e, he⟩
        exact absurd he (by simp)
      · rintro ⟨hno, _⟩
        exact (hno ((occursIn_iff_hasSub old content).2 hs)).elim
  · have hold : old.toList ≠ [] := by
      intro he
      apply hs
      rw [he]
      exact hasSub_nil _
    have holdne : old ≠ "" := by
      intro he
      apply hold
      rw [he]
      rfl
    have hnonempty : ((splitlines old).map pyStrip).isEmpty = false := by
      have h1 : splitlines old ≠ [] := splitlines_ne_nil holdne
      cases hc : splitlines old with
      | nil => exact absurd hc h1
      | cons a t => rfl
    constructor
    · intro hocc
      exact absurd ((occursIn_iff_hasSub old content).1 hocc) hs
    · unfold editFileContent
      rw [if_neg hs]
      simp only [hnonempty, Bool.false_eq_true, if_false]
      cases hf : flexFindIdx ((splitlines content).map pyStrip) ((splitlines old).map pyStrip) with
      | some i =>
        constructor
        · rintro ⟨e, he⟩
          exact absurd he (by simp)
        · rintro ⟨_, hnf⟩
          exact absurd ((flexMatch_iff_findIdx old content).2 (by simp [hf])) hnf
      | none =>
        constructor
        · intro _
          refine ⟨fun hocc => absurd ((occursIn_iff_hasSub old content).1 hocc) hs,
                  fun hflex => ?_⟩
          have hsome := (flexMatch_iff_findIdx old content).1 hflex
          rw [hf] at hsome
          simp at hsome
        · intro _
          exact ⟨_, rfl⟩

/-- Witness for `c8_edit_matching`: an exact occurrence is replaced. -/
theorem c8_witness :
    editFileContent "hello world" "world" "there"
      = .ok (pyReplaceOnce "hello world" "world" "there") :=
  (c8_edit_matching "hello world" "world" "there").1
    ⟨"hello ".toList, [], by decide⟩

/-! ## C9: classify-and-dispatch subtask table -/

/-- A non-empty prefix changes a string. -/
theorem str_append_ne (p u : String) (hp : p ≠ "") : p ++ u ≠ u := by
  intro h
  have hlen := congrArg String.length h
  rw [String.length_append] at hlen
  have hp0 : p.length = 0 := by omega
  exact hp (by
    cases p with
    | mk data =>
      cases data with
      | nil => rfl
      | cons c t => simp [String.length] at hp0)

/-- Insertion preserves the multiset of subtasks. -/
theorem insertDesc_perm (x : SubTask) (l : List SubTask) :
    (insertDesc x l).Perm (x :: l) := by
  induction l with
  | nil => exact List.Perm.refl _
  | cons y ys ih =>
    unfold insertDesc
    by_cases h : y.priority ≤ x.priority
    · rw [if_pos h]
    · rw [if_neg h]
      exact (ih.cons y).trans (List.Perm.swap x y ys)

/-- The stable sort is a permutation of its input. -/
theorem sortByPriorityDesc_perm (l : List SubTask) : (sortByPriorityDesc l).Perm l := by
  induction l with
  | nil => exact List.Perm.refl _
  | cons x xs ih =>
    exact (insertDesc_perm x (sortByPriorityDesc xs)).trans (ih.cons x)

/-- Membership is preserved by the stable sort. -/
theorem mem_sortByPriorityDesc {a : SubTask} {l : List SubTask} :
    a ∈ sortByPriorityDesc l ↔ a ∈ l :=
  (sortByPriorityDesc_perm l).mem_iff

/-- Insertion into a descending-sorted list keeps it sorted. -/
theorem insertDesc_sorted {x : SubTask} {l : List SubTask}
    (h : l.Pairwise (fun a b => b.priority ≤ a.priority)) :
    (insertDesc x l).Pairwise (fun a b => b.priority ≤ a.priority) := by
  induction l with
  | nil => simp [insertDesc]
  | cons y ys ih =>
    rw [List.pairwise_cons] at h
    unfold insertDesc
    by_cases hxy : y.priority ≤ x.priority
    · rw [if_pos hxy]
      refine List.Pairwise.cons ?_ (List.Pairwise.cons h.1 h.2)
      intro z hz
      rcases List.mem_cons.1 hz with hz | hz
      · rw [hz]; exact hxy
      · exact Nat.le_trans (h.1 z hz) hxy
    · rw [if_neg hxy]
      refine List.Pairwise.cons ?_ (ih h.2)
      intro z hz
      rcases List.mem_cons.1 ((insertDesc_perm x ys).mem_iff.1 hz) with hz | hz
      · rw [hz]; omega
      · exact h.1 z hz

/-- The stable sort sorts by priority descending. -/
theorem sortByPriorityDesc_sorted (l : List SubTask) :
    (sortByPriorityDesc l).Pairwise (fun a b => b.priority ≤ a.priority) := by
  induction l with
  | nil => simp [sortByPriorityDesc]
  | cons x xs ih => exact insertDesc_sorted ih

/-- Characterization of `_create_subtasks` for arbitrary scores: output is
priority-sorted (descending, stable), defaults to the single generic PRO
subtask when no generating tag matched, and contains each fixed-table row
exactly when its tag matched (the Chinese-context row additionally requires
that no OPUS row was already added, i.e. no file-operation match). -/
theorem createSubtasks_spec (sc : IntentScores) (u : String) :
    (createSubtasks sc u).Pairwise (fun a b => b.priority ≤ a.priority) ∧
    (sc.file_operation = 0 → sc.bug_fix = 0 → sc.algorithm = 0 → sc.code_generation = 0 →
      sc.architecture = 0 → sc.chinese_context = 0 →
      createSubtasks sc u = [⟨.pro, u, 5⟩]) ∧
    ((⟨.opus, "执行文件操作: " ++ u, 10⟩ : SubTask) ∈ createSubtasks sc u ↔
      0 < sc.file_operation) ∧
    ((⟨.sonnet, "诊断并修复问题: " ++ u, 8⟩ : SubTask) ∈ createSubtasks sc u ↔
      0 < sc.bug_fix) ∧
    ((⟨.sonnet, "解决算法/优化问题: " ++ u, 7⟩ : SubTask) ∈ createSubtasks sc u ↔
      0 < sc.algorithm) ∧
    ((⟨.pro, "设计和实现: " ++ u, 5⟩ : SubTask) ∈ createSubtasks sc u ↔
      (0 < sc.code_generation ∨ 0 < sc.architecture)) ∧
    ((⟨.opus, "生成中文文档/报告: " ++ u, 3⟩ : SubTask) ∈ createSubtasks sc u ↔
      (0 < sc.chinese_context ∧ sc.file_operation = 0)) := by
  have hne1 : ("设计和实现: " ++ u) ≠ u := str_append_ne _ _ (by decide)
  have hne1' : u ≠ ("设计和实现: " ++ u) := fun h => hne1 h.symm
  refine ⟨sortByPriorityDesc_sorted _, ?_⟩
  unfold createSubtasks
  by_cases hfo : sc.file_operation = 0 <;>
    by_cases hbf : sc.bug_fix = 0 <;>
    by_cases halg : sc.algorithm = 0 <;>
    by_cases hcg : sc.code_generation = 0 <;>
    by_cases harch : sc.architecture = 0 <;>
    by_cases hch : sc.chinese_context = 0 <;>
    simp_all [mem_sortByPriorityDesc, Nat.pos_of_ne_zero, Nat.pos_iff_ne_zero, hne1, hne1',
      sortByPriorityDesc, insertDesc]

/-- Claim C9, as stated, is false on the request text `修复算法`: it
matches both the bug-fix tag (`修复`) and the algorithm tag (`算法`), both
of which map to the SONNET role, so the produced SubTask list contains
SONNET twice — the list is not de-duplicated by role. -/
theorem c9_counterexample :
    (subtasksForText "修复算法").map (fun s => s.role) = [.sonnet, .sonnet] ∧
    ¬ ((subtasksForText "修复算法").map (fun s => s.role)).Nodup := by
  refine ⟨by decide, by decide⟩

/-- C9 (amended): for every request text, the produced SubTask list follows
the fixed tag-to-role priority table (file-operation → OPUS at 10,
bug-fix → SONNET at 8, algorithm → SONNET at 7, code-generation or
architecture → PRO at 5, Chinese-context → OPUS at 3 only when no OPUS
subtask exists yet), is sorted by priority descending, and defaults to a
single generic PRO SubTask when no generating tag matched.  De-duplication
applies only to the OPUS role via the Chinese-context guard; other roles
can repeat (see the counterexample). -/
theorem c9_dispatch_table : ∀ t : String,
    (subtasksForText t).Pairwise (fun a b => b.priority ≤ a.priority) ∧
    ((classifyIntent t).file_operation = 0 → (classifyIntent t).bug_fix = 0 →
      (classifyIntent t).algorithm = 0 → (classifyIntent t).code_generation = 0 →
      (classifyIntent t).architecture = 0 → (classifyIntent t).chinese_context = 0 →
      subtasksForText t = [⟨.pro, t, 5⟩]) ∧
    ((⟨.opus, "执行文件操作: " ++ t, 10⟩ : SubTask) ∈ subtasksForText t ↔
      0 < (classifyIntent t).file_operation) ∧
    ((⟨.sonnet, "诊断并修复问题: " ++ t, 8⟩ : SubTask) ∈ subtasksForText t ↔
      0 < (classifyIntent t).bug_fix) ∧
    ((⟨.sonnet, "解决算法/优化问题: " ++ t, 7⟩ : SubTask) ∈ subtasksForText t ↔
      0 < (classifyIntent t).algorithm) ∧
    ((⟨.pro, "设计和实现: " ++ t, 5⟩ : SubTask) ∈ subtasksForText t ↔
      (0 < (classifyIntent t).code_generation ∨ 0 < (classifyIntent t).architecture)) ∧
    ((⟨.opus, "生成中文文档/报告: " ++ t, 3⟩ : SubTask) ∈ subtasksForText t ↔
      (0 < (classifyIntent t).chinese_context ∧ (classifyIntent t).file_operation = 0)) :=
  fun t => createSubtasks_spec (classifyIntent t) t

/-- Witness for `c9_dispatch_table` at the concrete dispatched request
`你好世界` (no tag matches, so the default generic PRO subtask results). -/
theorem c9_witness :
    subtasksForText "你好世界" = [⟨.pro, "你好世界", 5⟩] :=
  (c9_dispatch_table "你好世界").2.1 rfl (by decide) rfl (by decide) rfl (by decide)

/-! ## C7 and C10: module worker first-turn behavior -/

/-- Shared helper: a first response with no tool calls, non-null content and
no escalation marker completes the module after exactly one agent call and
zero tool executions. -/
theorem execModule_complete_first_turn (env : ModuleEnv) (msgs0 : List ChatMessage)
    (module : ModuleSpec) (t : ParallelTask) (c : String)
    (h1 : (callAgentWithTools (env.agent msgs0)).tool_calls = [])
    (h2 : (callAgentWithTools (env.agent msgs0)).content = some c)
    (h3 : strContains c "[REQUEST_HELP" = false) :
    execModule env true msgs0 module t =
      ⟨{ t with status := .completed, code_output := some c,
                result := module.name ++ " 实现完成" }, 1, 0, false⟩ := by
  show execModuleLoop env module.name 15 msgs0 { t with status := .in_progress } 0 0 = _
  rw [show (15 : Nat) = 14 + 1 from rfl, execModuleLoop]
  simp only [h1, h2, h3, List.isEmpty_nil, if_true, Bool.false_eq_true,
    if_false, completeTask]

/-- A string starting with a given marker still starts with it after
appending a suffix. -/
theorem pyStartsWith_append_left (p q n : String) (h : pyStartsWith p n = true) :
    pyStartsWith (p ++ q) n = true := by
  unfold pyStartsWith at *
  have hd : (p ++ q).toList = p.toList ++ q.toList := by
    show (p ++ q).data = p.data ++ q.data
    exact String.data_append p q
  rw [hd]
  rw [subAt_iff] at h ⊢
  obtain ⟨post, hp⟩ := h
  exact ⟨post ++ q.toList, by rw [hp, List.append_assoc]⟩

/-- Claim C7, as stated, is false when the agent's response carries no tool
calls and a `None` content: the Python membership test
`"[REQUEST_HELP" in response.content` raises `TypeError`, the worker
coroutine dies and the module stays InProgress instead of Completed.
(The response carries no action requests and no escalation marker.) -/
theorem c7_counterexample :
    (callAgentWithTools
      ((⟨fun _ => .ok { role := .assistant }, fun _ _ => .missing, fun _ => none⟩ :
        ModuleEnv).agent [])).tool_calls = [] ∧
    (callAgentWithTools
      ((⟨fun _ => .ok { role := .assistant }, fun _ _ => .missing, fun _ => none⟩ :
        ModuleEnv).agent [])).content = none ∧
    (execModule ⟨fun _ => .ok { role := .assistant }, fun _ _ => .missing, fun _ => none⟩
        true [] { name := "m" } { id := "module_0" }).task.status = .in_progress ∧
    (execModule ⟨fun _ => .ok { role := .assistant }, fun _ _ => .missing, fun _ => none⟩
        true [] { name := "m" } { id := "module_0" }).task.status ≠ .completed ∧
    (execModule ⟨fun _ => .ok { role := .assistant }, fun _ _ => .missing, fun _ => none⟩
        true [] { name := "m" } { id := "module_0" }).crashed = true ∧
    (execModule ⟨fun _ => .ok { role := .assistant }, fun _ _ => .missing, fun _ => none⟩
        true [] { name := "m" } { id := "module_0" }).agentCalls = 1 := by
  refine ⟨rfl, rfl, rfl, by decide, rfl, rfl⟩

/-- C7 (amended): a module whose agent response on the first turn carries
no tool calls, no escalation marker, and non-null content is Completed with
exactly one agent call, zero tool executions, the content as output, and no
crash. -/
theorem c7_no_action_completes : ∀ (env : ModuleEnv) (msgs0 : List ChatMessage)
    (module : ModuleSpec) (t : ParallelTask) (c : String),
    (callAgentWithTools (env.agent msgs0)).tool_calls = [] →
    (callAgentWithTools (env.agent msgs0)).content = some c →
    strContains c "[REQUEST_HELP" = false →
    (execModule env true msgs0 module t).task.status = .completed ∧
    (execModule env true msgs0 module t).agentCalls = 1 ∧
    (execModule env true msgs0 module t).toolCallsCount = 0 ∧
    (execModule env true msgs0 module t).task.code_output = some c ∧
    (execModule env true msgs0 module t).crashed = false := by
  intro env msgs0 module t c h1 h2 h3
  rw [execModule_complete_first_turn env msgs0 module t c h1 h2 h3]
  exact ⟨rfl, rfl, rfl, rfl, rfl⟩

/-- Witness for `c7_no_action_completes` at a concrete environment whose
agent immediately answers `done` with no tool calls. -/
theorem c7_witness :
    (execModule ⟨fun _ => .ok { role := .assistant, content := some "done" },
                 fun _ _ => .missing, fun _ => none⟩
        true [] { name := "m" } { id := "module_0" }).task.status = .completed ∧
    (execModule ⟨fun _ => .ok { role := .assistant, content := some "done" },
                 fun _ _ => .missing, fun _ => none⟩
        true [] { name := "m" } { id := "module_0" }).agentCalls = 1 ∧
    (execModule ⟨fun _ => .ok { role := .assistant, content := some "done" },
                 fun _ _ => .missing, fun _ => none⟩
        true [] { name := "m" } { id := "module_0" }).toolCallsCount = 0 ∧
    (execModule ⟨fun _ => .ok { role := .assistant, content := some "done" },
                 fun _ _ => .missing, fun _ => none⟩
        true [] { name := "m" } { id := "module_0" }).task.code_output = some "done" ∧
    (execModule ⟨fun _ => .ok { role := .assistant, content := some "done" },
                 fun _ _ => .missing, fun _ => none⟩
        true [] { name := "m" } { id := "module_0" }).crashed = false :=
  c7_no_action_completes
    ⟨fun _ => .ok { role := .assistant, content := some "done" },
     fun _ _ => .missing, fun _ => none⟩
    [] { name := "m" } { id := "module_0" } "done" rfl rfl (by decide)

/-- C10: an agent call that fails by timeout or exception yields an
assistant message whose content starts with `Error:` and which carries no
tool calls; if that content contains no `[REQUEST_HELP` escalation marker,
the module worker marks the module Completed with the error text as its
output — an agent-call failure is recorded as success, never as Failed. -/
theorem c10_error_response_completes : ∀ (o : CallOutcome) (env : ModuleEnv)
    (msgs0 : List ChatMessage) (module : ModuleSpec) (t : ParallelTask) (c : String),
    (match o with | .ok _ => False | .timeout _ => True | .exc _ => True) →
    env.agent msgs0 = o →
    (callAgentWithTools o).content = some c →
    strContains c "[REQUEST_HELP" = false →
    pyStartsWith c "Error:" = true ∧
    (callAgentWithTools o).tool_calls = [] ∧
    (execModule env true msgs0 module t).task.status = .completed ∧
    (execModule env true msgs0 module t).task.code_output = some c ∧
    (execModule env true msgs0 module t).task.status ≠ .failed := by
  intro o env msgs0 module t c ho hag h2 h3
  have h1 : (callAgentWithTools (env.agent msgs0)).tool_calls = [] := by
    rw [hag]
    cases o with
    | ok m => exact ho.elim
    | timeout s => rfl
    | exc e => rfl
  have h2' : (callAgentWithTools (env.agent msgs0)).content = some c := by rw [hag]; exact h2
  have hcomp := execModule_complete_first_turn env msgs0 module t c h1 h2' h3
  have hstart : pyStartsWith c "Error:" = true := by
    cases o with
    | ok m => exact ho.elim
    | timeout s =>
      have hc : c = "Error: API调用超时 (" ++ toString s ++ "秒)" := by
        simpa [callAgentWithTools] using h2.symm
      rw [hc]
      exact pyStartsWith_append_left _ _ _ (pyStartsWith_append_left _ _ _ (by decide))
    | exc e =>
      have hc : c = "Error: " ++ e := by
        simpa [callAgentWithTools] using h2.symm
      rw [hc]
      exact pyStartsWith_append_left _ _ _ (by decide)
  rw [hcomp]
  exact ⟨hstart, by rw [← hag]; exact h1, rfl, rfl,
    fun h => absurd h (by decide : TaskStatus.completed ≠ TaskStatus.failed)⟩

/-- Witness for `c10_error_response_completes` at a concrete raised
exception `boom`. -/
theorem c10_witness :
    pyStartsWith "Error: boom" "Error:" = true ∧
    (callAgentWithTools (.exc "boom")).tool_calls = [] ∧
    (execModule ⟨fun _ => .exc "boom", fun _ _ => .missing, fun _ => none⟩
        true [] { name := "m" } { id := "module_0" }).task.status = .completed ∧
    (execModule ⟨fun _ => .exc "boom", fun _ _ => .missing, fun _ => none⟩
        true [] { name := "m" } { id := "module_0" }).task.code_output = some "Error: boom" ∧
    (execModule ⟨fun _ => .exc "boom", fun _ _ => .missing, fun _ => none⟩
        true [] { name := "m" } { id := "module_0" }).task.status ≠ .failed :=
  c10_error_response_completes (.exc "boom")
    ⟨fun _ => .exc "boom", fun _ _ => .missing, fun _ => none⟩
    [] { name := "m" } { id := "module_0" } "Error: boom"
    trivial rfl rfl (by decide)

/-! ## C6: iteration budget exhaustion and the single repair pass -/

/-- If every agent response carries tool calls, the worker loop runs out of
budget and fails with the fixed issue string. -/
theorem execModuleLoop_exhaust (env : ModuleEnv) (name : String)
    (hall : ∀ ms, (callAgentWithTools (env.agent ms)).tool_calls ≠ []) :
    ∀ fuel msgs t aC tC,
      (execModuleLoop env name fuel msgs t aC tC).task.status = .failed ∧
      (execModuleLoop env name fuel msgs t aC tC).task.issues =
        t.issues ++ ["达到最大迭代次数"] := by
  intro fuel
  induction fuel with
  | zero => intro msgs t aC tC; exact ⟨rfl, rfl⟩
  | succ n ih =>
    intro msgs t aC tC
    have hne : (callAgentWithTools (env.agent msgs)).tool_calls.isEmpty = false := by
      cases hc : (callAgentWithTools (env.agent msgs)).tool_calls with
      | nil => exact absurd hc (hall msgs)
      | cons a l => rfl
    rw [execModuleLoop]
    simp only [hne, Bool.false_eq_true, if_false]
    exact ih _ _ _ _

/-- The repair loop either completes the task or leaves it unchanged. -/
theorem repairLoop_result (agentO : List ChatMessage → CallOutcome)
    (tool : AgentToolCall → List ChatMessage → ToolOutcome) :
    ∀ fuel msgs t, repairLoop agentO tool fuel msgs t = t ∨
      (repairLoop agentO tool fuel msgs t).status = .completed := by
  intro fuel
  induction fuel with
  | zero => intro msgs t; exact Or.inl rfl
  | succ n ih =>
    intro msgs t
    rw [repairLoop]
    by_cases h : (callAgentWithTools (agentO msgs)).tool_calls.isEmpty = true
    · simp only [h, if_true]
      exact Or.inr (by simp)
    · have h' : (callAgentWithTools (agentO msgs)).tool_calls.isEmpty = false := by
        rwa [Bool.not_eq_true] at h
      simp only [h', Bool.false_eq_true, if_false]
      exact ih _ _

/-- Lemma: `_repair_module` either performs no attempt (no OPUS/PRO), or attempts
once and ends with the task Completed or unchanged. -/
theorem repairModule_cases (agents : List ModelRole) (env : RepairEnv) (t : ParallelTask) :
    (repairModule agents env t = (t, false) ∧
      agents.contains ModelRole.opus = false ∧ agents.contains ModelRole.pro = false) ∨
    ((repairModule agents env t).2 = true ∧
      ((repairModule agents env t).1 = t ∨ (repairModule agents env t).1.status = .completed)) := by
  unfold repairModule
  by_cases h : (agents.contains ModelRole.opus || agents.contains ModelRole.pro) = true
  · rw [if_pos h]
    exact Or.inr ⟨rfl, repairLoop_result _ _ _ _ _⟩
  · rw [if_neg h]
    simp only [Bool.or_eq_true, not_or, Bool.not_eq_true] at h
    exact Or.inl ⟨rfl, h.1, h.2⟩

/-- With distinct module names, looking a module's own name up by
`findIdx?` returns its index. -/
theorem findIdx?_name_self :
    ∀ (modules : List ModuleSpec), ((modules.map (fun m => m.name)).Nodup) →
    ∀ (s i : Nat) (m : ModuleSpec), modules.get? i = some m →
      List.findIdx? (fun mm => mm.name == m.name) modules s = some (s + i) := by
  intro modules
  induction modules with
  | nil => intro _ s i m hm; simp at hm
  | cons hd tl ih =>
    intro hnd s i m hm
    simp only [List.map_cons, List.nodup_cons] at hnd
    cases i with
    | zero =>
      have hhd : hd = m := by simpa using hm
      rw [List.findIdx?_cons]
      simp [hhd]
    | succ i' =>
      have htl : tl.get? i' = some m := by simpa using hm
      have hmem : m ∈ tl := List.get?_mem htl
      have hne : (hd.name == m.name) = false := by
        simp only [beq_eq_false_iff_ne, ne_eq]
        intro hc
        exact hnd.1 (by rw [hc]; exact List.mem_map_of_mem _ hmem)
      rw [List.findIdx?_cons, hne]
      simp only [Bool.false_eq_true, if_false]
      have := ih hnd.2 (s + 1) i' m htl
      rw [this]
      congr 1
      omega

/-- The repair fold over a duplicate-free list of in-range task indices:
each index is repaired and logged exactly once, other indices are
untouched, and a repaired task is either unchanged or Completed. -/
theorem foldRepair_spec (agents : List ModelRole) (envs : Nat → RepairEnv)
    (modules : List ModuleSpec) (hnd : (modules.map (fun m => m.name)).Nodup)
    (hop : agents.contains ModelRole.opus = true ∨ agents.contains ModelRole.pro = true) :
    ∀ L : List Nat, L.Nodup → (∀ i ∈ L, i < modules.length) →
    ∀ (ts0 : List ParallelTask) (log0 : List Nat), ts0.length = modules.length →
      (L.foldl (repairStep agents envs modules) (ts0, log0)).2 = log0 ++ L ∧
      (L.foldl (repairStep agents envs modules) (ts0, log0)).1.length = modules.length ∧
      (∀ j, j ∉ L →
        (L.foldl (repairStep agents envs modules) (ts0, log0)).1.get? j = ts0.get? j) ∧
      (∀ i ∈ L, ∀ t0, ts0.get? i = some t0 →
        ∃ t', (L.foldl (repairStep agents envs modules) (ts0, log0)).1.get? i = some t' ∧
          (t' = t0 ∨ t'.status = .completed)) := by
  intro L
  induction L with
  | nil =>
    intro _ _ ts0 log0 hlen
    exact ⟨by simp, hlen, fun j _ => rfl, fun i hi => absurd hi (by simp)⟩
  | cons i L' ih =>
    intro hndL hbound ts0 log0 hlen
    have hiL : i ∉ L' := (List.nodup_cons.1 hndL).1
    have hi : i < modules.length := hbound i (by simp)
    obtain ⟨m, hm⟩ : ∃ m, modules.get? i = some m := by
      cases hg : modules.get? i with
      | none => rw [List.get?_eq_none] at hg; omega
      | some m => exact ⟨m, rfl⟩
    obtain ⟨t0, ht0⟩ : ∃ t0, ts0.get? i = some t0 := by
      cases hg : ts0.get? i with
      | none => rw [List.get?_eq_none] at hg; omega
      | some t0 => exact ⟨t0, rfl⟩
    have hfind : List.findIdx? (fun mm => mm.name == m.name) modules = some i := by
      have := findIdx?_name_self modules hnd 0 i m hm
      simpa using this
    have hr2 : (repairModule agents (envs log0.length) t0).2 = true := by
      have hcond : (agents.contains ModelRole.opus || agents.contains ModelRole.pro) = true := by
        rcases hop with h | h
        · rw [h]; rfl
        · rw [h, Bool.or_true]
      unfold repairModule
      rw [if_pos hcond]
    have hstep : repairStep agents envs modules (ts0, log0) i =
        (ts0.set i (repairModule agents (envs log0.length) t0).1, log0 ++ [i]) := by
      unfold repairStep
      simp only [hm, hfind, ht0, hr2, if_true]
    have hlen1 : (ts0.set i (repairModule agents (envs log0.length) t0).1).length =
        modules.length := by rw [List.length_set]; exact hlen
    have hbound' : ∀ x ∈ L', x < modules.length := fun x hx => hbound x (by simp [hx])
    have hih := ih (List.nodup_cons.1 hndL).2 hbound'
      (ts0.set i (repairModule agents (envs log0.length) t0).1) (log0 ++ [i]) hlen1
    rw [List.foldl_cons, hstep]
    refine ⟨by rw [hih.1]; simp, hih.2.1, ?_, ?_⟩
    · intro j hj
      have hjne : i ≠ j := fun hc => hj (by simp [hc])
      have hjL' : j ∉ L' := fun hc => hj (by simp [hc])
      rw [hih.2.2.1 j hjL', List.get?_set]
      rw [if_neg hjne]
    · intro x hx t0x ht0x
      rcases List.mem_cons.1 hx with hx | hx
      · subst hx
        have hts : t0 = t0x := Option.some.inj (ht0.symm.trans ht0x)
        have hset : (ts0.set x (repairModule agents (envs log0.length) t0).1).get? x =
            some (repairModule agents (envs log0.length) t0).1 := by
          rw [List.get?_set, if_pos rfl, ht0]
          rfl
        have hpres := hih.2.2.1 x hiL
        refine ⟨(repairModule agents (envs log0.length) t0).1, by rw [hpres, hset], ?_⟩
        rcases repairModule_cases agents (envs log0.length) t0 with hcase | hcase
        · rw [hcase.1]
          exact Or.inl hts
        · rcases hcase.2 with hc | hc
          · exact Or.inl (hc.trans hts)
          · exact Or.inr hc
      · have hxi : x ≠ i := fun hc => hiL (hc ▸ hx)
        have hset : (ts0.set i (repairModule agents (envs log0.length) t0).1).get? x =
            some t0x := by
          rw [List.get?_set, if_neg (fun hc => hxi hc.symm)]
          exact ht0x
        exact hih.2.2.2 x hx t0x hset

/-- Claim C6, as stated, is false in three respects, each exhibited at a
concrete input: (1) the issue recorded on budget exhaustion is the fixed
Chinese string `达到最大迭代次数`, not the literal "max iterations
exceeded"; (2) with only SONNET configured, a failed module receives no
repair attempt at all (the repair agent is OPUS else PRO, not the
strongest *available* role); (3) with two modules of the same name, the
name-based task lookup repairs the first module's task twice and the
second module's task never. -/
theorem c6_counterexample :
    ((execModule ⟨fun _ => .ok { role := .assistant, content := none,
                                 tool_calls := [{ id := "t1", name := "x" }] },
                  fun _ _ => .missing, fun _ => none⟩
        true [] { name := "m" } { id := "module_0" }).task.issues = ["达到最大迭代次数"] ∧
     (execModule ⟨fun _ => .ok { role := .assistant, content := none,
                                 tool_calls := [{ id := "t1", name := "x" }] },
                  fun _ _ => .missing, fun _ => none⟩
        true [] { name := "m" } { id := "module_0" }).task.status = .failed ∧
     "达到最大迭代次数" ≠ "max iterations exceeded") ∧
    (integrateRepairPhase [.sonnet]
        (fun _ => ⟨fun _ => .exc "x", fun _ _ => .missing, []⟩)
        [{ name := "m" }] [{ id := "module_0", status := .failed }]
      = ([{ id := "module_0", status := .failed }], [])) ∧
    ((integrateRepairPhase [.opus]
        (fun _ => ⟨fun _ => .ok { role := .assistant, content := some "ok" },
                   fun _ _ => .missing, []⟩)
        [{ name := "core" }, { name := "core" }]
        [{ id := "module_0", status := .failed }, { id := "module_1", status := .failed }]).2
      = [0, 0] ∧
     (integrateRepairPhase [.opus]
        (fun _ => ⟨fun _ => .ok { role := .assistant, content := some "ok" },
                   fun _ _ => .missing, []⟩)
        [{ name := "core" }, { name := "core" }]
        [{ id := "module_0", status := .failed }, { id := "module_1", status := .failed }]).1.get? 1
      = some { id := "module_1", status := .failed }) := by
  refine ⟨⟨rfl, rfl, by decide⟩, rfl, rfl, rfl⟩

/-- C6 (amended): a module whose tool-use loop exhausts its budget is
Failed with the fixed issue string `达到最大迭代次数` ("max iterations
exceeded"); in the integration phase, provided OPUS or PRO is configured
and module names are distinct (one task per module), every module not
Completed receives exactly one repair attempt — the repair log lists each
such task index exactly once — after which it is Completed or remains
permanently Failed, and Completed modules are left untouched; with neither
OPUS nor PRO configured no repair attempt is made. -/
theorem c6_budget_and_repair :
    (∀ (env : ModuleEnv) (name : String),
      (∀ ms, (callAgentWithTools (env.agent ms)).tool_calls ≠ []) →
      ∀ fuel msgs (t : ParallelTask) aC tC,
        (execModuleLoop env name fuel msgs t aC tC).task.status = .failed ∧
        (execModuleLoop env name fuel msgs t aC tC).task.issues =
          t.issues ++ ["达到最大迭代次数"]) ∧
    (∀ (agents : List ModelRole) (envs : Nat → RepairEnv) (modules : List ModuleSpec)
        (tasks : List ParallelTask),
      tasks.length = modules.length →
      ((modules.map (fun m => m.name)).Nodup) →
      (agents.contains ModelRole.opus = true ∨ agents.contains ModelRole.pro = true) →
      (integrateRepairPhase agents envs modules tasks).2 =
        (List.range tasks.length).filter (fun i =>
          match tasks.get? i with
          | some t => t.status != .completed
          | none => false) ∧
      (integrateRepairPhase agents envs modules tasks).2.Nodup ∧
      (∀ i t0, tasks.get? i = some t0 → t0.status = .failed →
        ∃ t', (integrateRepairPhase agents envs modules tasks).1.get? i = some t' ∧
          (t'.status = .completed ∨ t'.status = .failed)) ∧
      (∀ i t0, tasks.get? i = some t0 → t0.status = .completed →
        (integrateRepairPhase agents envs modules tasks).1.get? i = some t0)) := by
  constructor
  · exact fun env name hall => execModuleLoop_exhaust env name hall
  · intro agents envs modules tasks hlen hnd hop
    have hne : agents.isEmpty = false := by
      cases agents with
      | nil => rcases hop with h | h <;> simp [List.contains] at h
      | cons a l => rfl
    have hE : integrateRepairPhase agents envs modules tasks =
        ((List.range tasks.length).filter (fun i =>
          match tasks.get? i with
          | some t => t.status != .completed
          | none => false)).foldl (repairStep agents envs modules) (tasks, []) := by
      unfold integrateRepairPhase
      simp only [hne, Bool.false_eq_true, if_false]
    have hFnd : ((List.range tasks.length).filter (fun i =>
        match tasks.get? i with
        | some t => t.status != .completed
        | none => false)).Nodup := (List.nodup_range _).filter _
    have hFbound : ∀ i ∈ (List.range tasks.length).filter (fun i =>
        match tasks.get? i with
        | some t => t.status != .completed
        | none => false), i < modules.length := by
      intro i hi
      have := List.mem_range.1 (List.mem_filter.1 hi).1
      omega
    have hspec := foldRepair_spec agents envs modules hnd hop _ hFnd hFbound tasks [] hlen
    refine ⟨by rw [hE, hspec.1]; simp, by rw [hE, hspec.1]; simpa using hFnd, ?_, ?_⟩
    · intro i t0 ht hf
      have hilt : i < tasks.length := (List.get?_eq_some.1 ht).1
      have hiF : i ∈ (List.range tasks.length).filter (fun i =>
          match tasks.get? i with
          | some t => t.status != .completed
          | none => false) := by
        refine List.mem_filter.2 ⟨List.mem_range.2 hilt, ?_⟩
        simp only [ht]
        rw [hf]
        rfl
      obtain ⟨t', h1, h2⟩ := hspec.2.2.2 i hiF t0 ht
      refine ⟨t', by rw [hE]; exact h1, ?_⟩
      rcases h2 with h2 | h2
      · exact Or.inr (by rw [h2, hf])
      · exact Or.inl h2
    · intro i t0 ht hc
      have hiF : i ∉ (List.range tasks.length).filter (fun i =>
          match tasks.get? i with
          | some t => t.status != .completed
          | none => false) := by
        intro hmem
        have := (List.mem_filter.1 hmem).2
        simp only [ht] at this
        rw [hc] at this
        simp at this
      rw [hE, hspec.2.2.1 i hiF]
      exact ht

/-- Witness for `c6_budget_and_repair`: a tool-calling-forever environment
exhausts the budget, and a concrete one-module repair phase with OPUS
configured logs exactly one attempt. -/
theorem c6_witness :
    (execModuleLoop ⟨fun _ => .ok { role := .assistant, content := none,
                                    tool_calls := [{ id := "t1", name := "x" }] },
                     fun _ _ => .missing, fun _ => none⟩
        "m" 15 [] { id := "module_0" } 0 0).task.status = .failed ∧
    (integrateRepairPhase [.opus]
        (fun _ => ⟨fun _ => .ok { role := .assistant, content := some "ok" },
                   fun _ _ => .missing, []⟩)
        [{ name := "m" }] [{ id := "module_0", status := .failed }]).2 =
      (List.range 1).filter (fun i =>
        match [({ id := "module_0", status := .failed } : ParallelTask)].get? i with
        | some t => t.status != .completed
        | none => false) := by
  constructor
  · exact (c6_budget_and_repair.1
      ⟨fun _ => .ok { role := .assistant, content := none,
                      tool_calls := [{ id := "t1", name := "x" }] },
       fun _ _ => .missing, fun _ => none⟩
      "m" (fun ms => List.cons_ne_nil _ _) 15 [] { id := "module_0" } 0 0).1
  · exact (c6_budget_and_repair.2 [.opus]
      (fun _ => ⟨fun _ => .ok { role := .assistant, content := some "ok" },
                 fun _ _ => .missing, []⟩)
      [{ name := "m" }] [{ id := "module_0", status := .failed }]
      rfl (by decide) (Or.inl rfl)).1

/-! ## C1: batch barrier of the parallel engine -/

/-- Elements of an interleaving come from one of the two inputs. -/
theorem interleave_mem {a b c : List WEvent} (h : Interleave a b c) :
    ∀ e ∈ c, e ∈ a ∨ e ∈ b := by
  induction h with
  | nil => intro e he; simp at he
  | left h ih =>
    intro e he
    rcases List.mem_cons.1 he with he | he
    · exact Or.inl (by simp [he])
    · rcases ih e he with h1 | h1
      · exact Or.inl (List.mem_cons_of_mem _ h1)
      · exact Or.inr h1
  | right h ih =>
    intro e he
    rcases List.mem_cons.1 he with he | he
    · exact Or.inr (by simp [he])
    · rcases ih e he with h1 | h1
      · exact Or.inl h1
      · exact Or.inr (List.mem_cons_of_mem _ h1)

/-- Elements of the left input stay in the interleaving. -/
theorem interleave_mem_left {a b c : List WEvent} (h : Interleave a b c) :
    ∀ e ∈ a, e ∈ c := by
  induction h with
  | nil => intro e he; simp at he
  | left h ih =>
    intro e he
    rcases List.mem_cons.1 he with he | he
    · simp [he]
    · exact List.mem_cons_of_mem _ (ih e he)
  | right h ih =>
    intro e he
    exact List.mem_cons_of_mem _ (ih e he)

/-- Elements of the right input stay in the interleaving. -/
theorem interleave_mem_right {a b c : List WEvent} (h : Interleave a b c) :
    ∀ e ∈ b, e ∈ c := by
  induction h with
  | nil => intro e he; simp at he
  | left h ih =>
    intro e he
    exact List.mem_cons_of_mem _ (ih e he)
  | right h ih =>
    intro e he
    rcases List.mem_cons.1 he with he | he
    · simp [he]
    · exact List.mem_cons_of_mem _ (ih e he)

/-- Every event of an n-ary interleaving comes from one of the inputs. -/
theorem interleaveAll_mem {ws : List (List WEvent)} {tr : List WEvent}
    (h : InterleaveAll ws tr) : ∀ e ∈ tr, ∃ w ∈ ws, e ∈ w := by
  induction h with
  | nil => intro e he; simp at he
  | cons hint hall ih =>
    intro e he
    rcases interleave_mem hint e he with h1 | h1
    · exact ⟨_, by simp, h1⟩
    · obtain ⟨w, hw, hew⟩ := ih e h1
      exact ⟨w, List.mem_cons_of_mem _ hw, hew⟩

/-- Every event of an input occurs in the n-ary interleaving. -/
theorem interleaveAll_mem_rev {ws : List (List WEvent)} {tr : List WEvent}
    (h : InterleaveAll ws tr) : ∀ w ∈ ws, ∀ e ∈ w, e ∈ tr := by
  induction h with
  | nil => intro w hw; simp at hw
  | cons hint hall ih =>
    intro w hw e he
    rcases List.mem_cons.1 hw with hw | hw
    · exact interleave_mem_left hint e (hw ▸ he)
    · exact interleave_mem_right hint e (ih w hw e he)

/-- The empty list interleaves trivially on the left. -/
theorem interleave_nil_left (b : List WEvent) : Interleave [] b b := by
  induction b with
  | nil => exact .nil
  | cons x xs ih => exact .right ih

/-- Concatenation is one valid interleaving. -/
theorem interleave_append (a b : List WEvent) : Interleave a b (a ++ b) := by
  induction a with
  | nil => simpa using interleave_nil_left b
  | cons x xs ih => exact .left ih

/-- Sequential concatenation is one valid n-ary interleaving. -/
theorem interleaveAll_flatten : ∀ ws : List (List WEvent), InterleaveAll ws ws.flatten
  | [] => .nil
  | w :: ws => .cons (interleave_append w ws.flatten) (interleaveAll_flatten ws)

/-- A non-crashed worker loop ends Completed or Failed. -/
theorem execModuleLoop_terminal (env : ModuleEnv) (name : String) :
    ∀ fuel msgs (t : ParallelTask) aC tC,
      (execModuleLoop env name fuel msgs t aC tC).crashed = false →
      (execModuleLoop env name fuel msgs t aC tC).task.status = .completed ∨
      (execModuleLoop env name fuel msgs t aC tC).task.status = .failed := by
  intro fuel
  induction fuel with
  | zero => intro msgs t aC tC _; exact Or.inr rfl
  | succ n ih =>
    intro msgs t aC tC
    rw [execModuleLoop]
    by_cases htc : (callAgentWithTools (env.agent msgs)).tool_calls.isEmpty = true
    · simp only [htc, if_true]
      cases hc : (callAgentWithTools (env.agent msgs)).content with
      | none => intro hcr; exact absurd hcr (by simp)
      | some c =>
        by_cases hr : strContains c "[REQUEST_HELP" = true
        · simp only [hr, if_true]
          cases hh : env.help c with
          | some h' =>
            by_cases hemp : (h' != "") = true
            · simp only [hemp, if_true]
              exact ih _ _ _ _
            · have hemp' : (h' != "") = false := by rwa [Bool.not_eq_true] at hemp
              simp only [hemp', Bool.false_eq_true, if_false]
              intro _
              exact Or.inl rfl
          | none => intro _; exact Or.inl rfl
        · have hr' : strContains c "[REQUEST_HELP" = false := by rwa [Bool.not_eq_true] at hr
          simp only [hr', Bool.false_eq_true, if_false]
          intro _
          exact Or.inl rfl
    · have htc' : (callAgentWithTools (env.agent msgs)).tool_calls.isEmpty = false := by
        rwa [Bool.not_eq_true] at htc
      simp only [htc', Bool.false_eq_true, if_false]
      exact ih _ _ _ _

/-- A non-crashed module worker ends Completed or Failed. -/
theorem execModule_terminal (env : ModuleEnv) (hasAgent : Bool) (msgs0 : List ChatMessage)
    (module : ModuleSpec) (t : ParallelTask) :
    (execModule env hasAgent msgs0 module t).crashed = false →
    (execModule env hasAgent msgs0 module t).task.status = .completed ∨
    (execModule env hasAgent msgs0 module t).task.status = .failed := by
  cases hasAgent with
  | false => intro _; exact Or.inr rfl
  | true => exact execModuleLoop_terminal env module.name 15 msgs0 _ 0 0

/-- Every event of a batch segment carries that batch's index. -/
theorem batchTrace_eventBatch {k : Nat} {modules : List ModuleSpec} {batch : List String}
    {seg : List WEvent} (h : BatchTrace k modules batch seg) :
    ∀ e ∈ seg, eventBatch e = k := by
  obtain ⟨wtrs, hlen, hw, hintl⟩ := h
  intro e he
  obtain ⟨w, hwmem, hew⟩ := interleaveAll_mem hintl e he
  obtain ⟨n, hn⟩ := List.mem_iff_get?.1 hwmem
  have hnlt : n < wtrs.length := (List.get?_eq_some.1 hn).1
  have hget : wtrs.get ⟨n, hnlt⟩ = w := (List.get?_eq_some.1 hn).2
  rcases hw n hnlt with hnil | ⟨mod, nm, _, _, _, hwt⟩
  · rw [hget] at hnil
    rw [hnil] at hew
    simp at hew
  · rw [hget] at hwt
    obtain ⟨env, hasAgent, msgs0, t, hweq⟩ := hwt
    rw [hweq] at hew
    rcases List.mem_cons.1 hew with hew | hew
    · rw [hew]; rfl
    · rcases List.mem_cons.1 hew with hew | hew
      · rw [hew]; rfl
      · simp at hew

/-- A launched worker's finish event is in the same batch segment, and a
non-crashed finish carries a terminal status. -/
theorem batchTrace_finish_of_launch {k : Nat} {modules : List ModuleSpec}
    {batch : List String} {seg : List WEvent} (h : BatchTrace k modules batch seg)
    {mname : String} (hl : WEvent.launch k mname ∈ seg) :
    ∃ s c, WEvent.finish k mname s c ∈ seg ∧
      (c = false → s = .completed ∨ s = .failed) := by
  obtain ⟨wtrs, hlen, hw, hintl⟩ := h
  obtain ⟨w, hwmem, hew⟩ := interleaveAll_mem hintl _ hl
  obtain ⟨n, hn⟩ := List.mem_iff_get?.1 hwmem
  have hnlt : n < wtrs.length := (List.get?_eq_some.1 hn).1
  have hget : wtrs.get ⟨n, hnlt⟩ = w := (List.get?_eq_some.1 hn).2
  rcases hw n hnlt with hnil | ⟨mod, nm, _, _, _, hwt⟩
  · rw [hget] at hnil
    rw [hnil] at hew
    simp at hew
  · rw [hget] at hwt
    obtain ⟨env, hasAgent, msgs0, t, hweq⟩ := hwt
    have hname : mod.name = mname := by
      rw [hweq] at hew
      rcases List.mem_cons.1 hew with hew | hew
      · injection hew with h1 h2
        exact h2.symm
      · rcases List.mem_cons.1 hew with hew | hew
        · simp at hew
        · simp at hew
    refine ⟨(execModule env hasAgent msgs0 mod t).task.status,
            (execModule env hasAgent msgs0 mod t).crashed, ?_, ?_⟩
    · have : WEvent.finish k mod.name (execModule env hasAgent msgs0 mod t).task.status
          (execModule env hasAgent msgs0 mod t).crashed ∈ w := by
        rw [hweq]; simp
      rw [hname] at this
      exact interleaveAll_mem_rev hintl w hwmem _ this
    · exact execModule_terminal env hasAgent msgs0 mod t

/-- Locate the batch segment holding an event of known batch index. -/
theorem engineTrace_locate {modules : List ModuleSpec} {order : List (List String)}
    {segs : List (List WEvent)} (_hslen : segs.length = order.length)
    (hbatch : ∀ k (h : k < segs.length),
      ∃ batch, order.get? k = some batch ∧ BatchTrace k modules batch (segs.get ⟨k, h⟩))
    {e : WEvent} (he : e ∈ segs.flatten) {b : Nat} (heb : eventBatch e = b) :
    ∃ (hb : b < segs.length) (batch : List String),
      order.get? b = some batch ∧ BatchTrace b modules batch (segs.get ⟨b, hb⟩) ∧
      e ∈ segs.get ⟨b, hb⟩ := by
  obtain ⟨seg, hsegmem, hseg⟩ := List.mem_flatten.1 he
  obtain ⟨kk, hkk⟩ := List.mem_iff_get?.1 hsegmem
  have hklt : kk < segs.length := (List.get?_eq_some.1 hkk).1
  have hkget : segs.get ⟨kk, hklt⟩ = seg := (List.get?_eq_some.1 hkk).2
  obtain ⟨batch, hob, hbt⟩ := hbatch kk hklt
  have hkb : kk = b := by
    have := batchTrace_eventBatch hbt e (hkget ▸ hseg)
    rw [heb] at this
    exact this.symm
  subst hkb
  exact ⟨hklt, batch, hob, hbt, hkget ▸ hseg⟩

/-- Claim C1, as stated, is false: a worker whose agent response has null
content and no tool calls dies by `TypeError`, leaving its module
InProgress — never reaching Completed or Failed — yet the next batch is
launched anyway once `asyncio.gather` has collected all (possibly
exceptional) results.  Concrete trace: the batch-0 worker of `m1` crashes,
`m3`'s batch-1 worker is still launched, and no terminal-status event for
`m1` exists anywhere in the trace. -/
theorem c1_counterexample :
    EngineTrace [{ name := "m1" }, { name := "m3" }] [["m1"], ["m3"]]
      [.launch 0 "m1", .finish 0 "m1" .in_progress true,
       .launch 1 "m3", .finish 1 "m3" .completed false] ∧
    ([.launch 0 "m1", .finish 0 "m1" .in_progress true,
      .launch 1 "m3", .finish 1 "m3" .completed false] : List WEvent).get? 2
      = some (.launch 1 "m3") ∧
    (∀ q' s c,
      ([.launch 0 "m1", .finish 0 "m1" .in_progress true,
        .launch 1 "m3", .finish 1 "m3" .completed false] : List WEvent).get? q'
        = some (.finish 0 "m1" s c) →
      s ≠ .completed ∧ s ≠ .failed) := by
  refine ⟨?_, rfl, ?_⟩
  · refine ⟨[[.launch 0 "m1", .finish 0 "m1" .in_progress true],
            [.launch 1 "m3", .finish 1 "m3" .completed false]], rfl, ?_, rfl⟩
    intro k h
    match k, h with
    | 0, _ =>
      refine ⟨["m1"], rfl, ?_⟩
      refine ⟨[[.launch 0 "m1", .finish 0 "m1" .in_progress true]], rfl, ?_, ?_⟩
      · intro kk hkk
        have h0 : kk = 0 := Nat.lt_one_iff.1 (by simpa using hkk)
        subst h0
        refine Or.inr ⟨{ name := "m1" }, "m1", rfl, by simp, rfl, ?_⟩
        exact ⟨⟨fun _ => .ok { role := .assistant }, fun _ _ => .missing, fun _ => none⟩,
               true, [], { id := "module_0" }, rfl⟩
      · exact interleaveAll_flatten [[.launch 0 "m1", .finish 0 "m1" .in_progress true]]
    | 1, _ =>
      refine ⟨["m3"], rfl, ?_⟩
      refine ⟨[[.launch 1 "m3", .finish 1 "m3" .completed false]], rfl, ?_, ?_⟩
      · intro kk hkk
        have h0 : kk = 0 := Nat.lt_one_iff.1 (by simpa using hkk)
        subst h0
        refine Or.inr ⟨{ name := "m3" }, "m3", rfl, by simp, rfl, ?_⟩
        exact ⟨⟨fun _ => .ok { role := .assistant, content := some "done" },
                fun _ _ => .missing, fun _ => none⟩,
               true, [], { id := "module_1" }, rfl⟩
      · exact interleaveAll_flatten [[.launch 1 "m3", .finish 1 "m3" .completed false]]
  · intro q' s c h
    have hlt : q' < 4 := by
      have := (List.get?_eq_some.1 h).1
      simpa using this
    interval_cases q'
    · exact absurd h (by simp)
    · simp only [List.get?, Option.some.injEq] at h
      injection h with e1 e2 e3 e4
      subst e3
      exact ⟨by decide, by decide⟩
    · exact absurd h (by simp)
    · exact absurd h (by simp)

/-- C1 (amended): the engine is a hard rendezvous barrier — for any engine
trace, if a worker of batch `i` was launched and any worker of a later
batch `j` is launched at position `p`, then batch `i`'s worker has already
finished at an earlier position; a finish without an uncaught exception
carries a terminal status (Completed or Failed), while a crashed worker
(null-content response) finishes with its module still InProgress. -/
theorem c1_batch_barrier : ∀ (modules : List ModuleSpec) (order : List (List String))
    (tr : List WEvent), EngineTrace modules order tr →
    ∀ (i j q p : Nat) (m1 m2 : String), i < j →
    tr.get? q = some (.launch i m1) →
    tr.get? p = some (.launch j m2) →
    ∃ q' s c, q' < p ∧ tr.get? q' = some (.finish i m1 s c) ∧
      (c = false → s = .completed ∨ s = .failed) := by
  intro modules order tr het i j q p m1 m2 hij hq hp
  obtain ⟨segs, hslen, hbatch, rfl⟩ := het
  have hqmem : WEvent.launch i m1 ∈ segs.flatten := List.get?_mem hq
  obtain ⟨hib, batchi, hoi, hbti, hmemi⟩ := engineTrace_locate hslen hbatch hqmem rfl
  obtain ⟨s, c, hfin, hterm⟩ := batchTrace_finish_of_launch hbti hmemi
  have hsplit : segs.flatten =
      (segs.take (i + 1)).flatten ++ (segs.drop (i + 1)).flatten := by
    rw [← List.flatten_append, List.take_append_drop]
  have hsegtake : segs.get ⟨i, hib⟩ ∈ segs.take (i + 1) := by
    apply List.get?_mem (n := i)
    rw [List.get?_take (by omega)]
    exact List.get?_eq_get hib
  have hfinpre : WEvent.finish i m1 s c ∈ (segs.take (i + 1)).flatten :=
    List.mem_flatten.2 ⟨segs.get ⟨i, hib⟩, hsegtake, hfin⟩
  obtain ⟨q', hq'⟩ := List.mem_iff_get?.1 hfinpre
  have hq'lt : q' < (segs.take (i + 1)).flatten.length := (List.get?_eq_some.1 hq').1
  have hple : (segs.take (i + 1)).flatten.length ≤ p := by
    by_contra hcon
    push_neg at hcon
    have hpre : (segs.take (i + 1)).flatten.get? p = some (.launch j m2) := by
      rw [hsplit] at hp
      rwa [List.get?_append hcon] at hp
    have hmempre : WEvent.launch j m2 ∈ (segs.take (i + 1)).flatten := List.get?_mem hpre
    obtain ⟨seg', hseg'mem, hmem'⟩ := List.mem_flatten.1 hmempre
    obtain ⟨kk, hkk⟩ := List.mem_iff_get?.1 hseg'mem
    have hkklt : kk < (segs.take (i + 1)).length := (List.get?_eq_some.1 hkk).1
    have hkki : kk < i + 1 := by
      rw [List.length_take] at hkklt
      omega
    have hkk' : segs.get? kk = some seg' := by
      rw [← List.get?_take hkki]
      exact hkk
    have hkkseg : kk < segs.length := (List.get?_eq_some.1 hkk').1
    obtain ⟨batch', _, hbt'⟩ := hbatch kk hkkseg
    have : eventBatch (WEvent.launch j m2) = kk := by
      apply batchTrace_eventBatch hbt'
      rw [(List.get?_eq_some.1 hkk').2]
      exact hmem'
    simp only [eventBatch] at this
    omega
  refine ⟨q', s, c, by omega, ?_, hterm⟩
  rw [hsplit, List.get?_append hq'lt]
  exact hq'

/-- Witness for `c1_batch_barrier` on a concrete two-batch trace
`[[m1, m2], [m3]]` whose workers all complete: the launch of `m3` in batch
1 is preceded by a terminal finish of `m1`. -/
theorem c1_witness :
    EngineTrace [{ name := "m1" }, { name := "m2" }, { name := "m3" }]
      [["m1", "m2"], ["m3"]]
      [.launch 0 "m1", .finish 0 "m1" .completed false,
       .launch 0 "m2", .finish 0 "m2" .completed false,
       .launch 1 "m3", .finish 1 "m3" .completed false] ∧
    (∃ q' s c, q' < 4 ∧
      ([.launch 0 "m1", .finish 0 "m1" .completed false,
        .launch 0 "m2", .finish 0 "m2" .completed false,
        .launch 1 "m3", .finish 1 "m3" .completed false] : List WEvent).get? q'
        = some (.finish 0 "m1" s c) ∧
      (c = false → s = .completed ∨ s = .failed)) := by
  have het : EngineTrace [{ name := "m1" }, { name := "m2" }, { name := "m3" }]
      [["m1", "m2"], ["m3"]]
      [.launch 0 "m1", .finish 0 "m1" .completed false,
       .launch 0 "m2", .finish 0 "m2" .completed false,
       .launch 1 "m3", .finish 1 "m3" .completed false] := by
    refine ⟨[[.launch 0 "m1", .finish 0 "m1" .completed false,
              .launch 0 "m2", .finish 0 "m2" .completed false],
             [.launch 1 "m3", .finish 1 "m3" .completed false]], rfl, ?_, rfl⟩
    intro k h
    match k, h with
    | 0, _ =>
      refine ⟨["m1", "m2"], rfl, ?_⟩
      refine ⟨[[.launch 0 "m1", .finish 0 "m1" .completed false],
               [.launch 0 "m2", .finish 0 "m2" .completed false]], rfl, ?_, ?_⟩
      · intro kk hkk
        have hkk2 : kk < 2 := by simpa using hkk
        interval_cases kk
        · refine Or.inr ⟨{ name := "m1" }, "m1", rfl, by simp, rfl, ?_⟩
          exact ⟨⟨fun _ => .ok { role := .assistant, content := some "done" },
                  fun _ _ => .missing, fun _ => none⟩,
                 true, [], { id := "module_0" }, rfl⟩
        · refine Or.inr ⟨{ name := "m2" }, "m2", rfl, by simp, rfl, ?_⟩
          exact ⟨⟨fun _ => .ok { role := .assistant, content := some "done" },
                  fun _ _ => .missing, fun _ => none⟩,
                 true, [], { id := "module_1" }, rfl⟩
      · exact interleaveAll_flatten
          [[.launch 0 "m1", .finish 0 "m1" .completed false],
           [.launch 0 "m2", .finish 0 "m2" .completed false]]
    | 1, _ =>
      refine ⟨["m3"], rfl, ?_⟩
      refine ⟨[[.launch 1 "m3", .finish 1 "m3" .completed false]], rfl, ?_, ?_⟩
      · intro kk hkk
        have h0 : kk = 0 := Nat.lt_one_iff.1 (by simpa using hkk)
        subst h0
        refine Or.inr ⟨{ name := "m3" }, "m3", rfl, by simp, rfl, ?_⟩
        exact ⟨⟨fun _ => .ok { role := .assistant, content := some "done" },
                fun _ _ => .missing, fun _ => none⟩,
               true, [], { id := "module_2" }, rfl⟩
      · exact interleaveAll_flatten [[.launch 1 "m3", .finish 1 "m3" .completed false]]
  exact ⟨het, c1_batch_barrier _ _ _ het 0 1 0 4 "m1" "m3" (by omega) rfl rfl⟩

end HydraSpec
